import Mathlib

/-!
Verification of `src/internal/icu/file.cpp` from dolthub/go-icu-regex.

The file under verification is a thin C adapter (taken from MySQL's
`regexp_engine.cc`) around ICU's `uregex_*` matcher API.  The four functions
of the repository — `appendHead`, `appendReplacement` (with its helper
`tryToAppendReplacement`), `appendTail` (with `tryToAppendTail`) and
`replace` — are embedded below, statement by statement.

The ICU matcher itself is an external collaborator (spec §1 "Out of scope").
It is modelled as a `Matcher` state holding the bound text, an ordered list
of match spans, and the matcher-side bookkeeping (current match, append
position).  Per the spec's collaborator contract (§4.1, §4.2, glossary):
every call checks the error code at entry and is a no-op on failure (ICU
convention); `find`/`findNext` iterate over match spans; append operations
copy the pending input region plus the replacement, and signal
buffer-overflow with the needed length when capacity is insufficient.
The `fault` flag models a matcher-level failure (any non-success code other
than overflow); the `shortReport` field models the spec's "internal
inconsistency" scenario (§7) in which the matcher mis-reports the required
size on overflow — an honest matcher has `fault = false, shortReport = 0`.

Character units (`UChar`, UTF-16 code units) are modelled as `Nat`;
`std::u16string` as `List Nat` with explicit `resize` (C++ value-initialised
padding) and `writeAt` (writing through `&buf[pos]`).
-/

namespace GoIcuRegex

/-- The ICU error codes relevant to this code: `U_ZERO_ERROR`,
`U_BUFFER_OVERFLOW_ERROR`, and `other` standing for any other non-success
code (e.g. `U_REGEX_INVALID_STATE`). -/
inductive UErrorCode where
  | zero
  | overflow
  | other
deriving DecidableEq, Repr

/-- ICU's `U_SUCCESS` predicate (warnings do not occur in this model). -/
def U_SUCCESS : UErrorCode → Bool
  | .zero => true
  | _ => false

/-- C++ `std::u16string::resize`: truncate or pad with value-initialised
(zero) units. -/
def resize (l : List Nat) (n : Nat) : List Nat :=
  l.take n ++ List.replicate (n - l.length) 0

/-- Writing `d` through a pointer into `l` at offset `p` (as ICU does through
`&buf[pos]`): the units `[p, p + d.length)` are overwritten. -/
def writeAt (l : List Nat) (p : Nat) (d : List Nat) : List Nat :=
  l.take p ++ d ++ l.drop (p + d.length)

/-- The half-open sub-range `[a, b)` of a list. -/
def slice (l : List Nat) (a b : Nat) : List Nat :=
  (l.drop a).take (b - a)

/-- Modelled from the spec: the external ICU matcher handle, pre-bound to a
pattern and to `text` (spec §3 "Matcher handle").  `matchSpans` is the ordered
list of match spans `(start, end)` the bound pattern produces; `current` is
the index of the current match, `appendFrom` the start of the input region
not yet copied by an append operation.  `fault` injects a matcher-level
failure; `shortReport` injects the spec §7 "reported required size was
wrong" inconsistency (honest matcher: `fault = false`, `shortReport = 0`). -/
structure Matcher where
  text : List Nat
  matchSpans : List (Nat × Nat)
  fault : Bool := false
  shortReport : Nat := 0
  current : Option Nat := none
  appendFrom : Nat := 0
deriving DecidableEq, Repr

/-- Index of the first match span beginning at or after `start`. -/
def firstQualIdx : List (Nat × Nat) → Nat → Option Nat
  | [], _ => none
  | p :: rest, start =>
    if start ≤ p.1 then some 0 else (firstQualIdx rest start).map (· + 1)

/-- Modelled from the spec: `uregex_find(m, start, ec)` — search for the
first match beginning at or after `start`; resets the append position to
`start`.  Returns `(found, matcher, error)`. -/
def uregex_find (m : Matcher) (start : Nat) (ec : UErrorCode) :
    Bool × Matcher × UErrorCode :=
  if U_SUCCESS ec = false then (false, m, ec)
  else if m.fault then (false, m, .other)
  else
    match firstQualIdx m.matchSpans start with
    | some i => (true, { m with current := some i, appendFrom := start }, ec)
    | none => (false, { m with current := none, appendFrom := start }, ec)

/-- Modelled from the spec: `uregex_findNext(m, ec)` — advance to the next
match; the append position moves to the end of the match being left behind
(so text skipped over without an append shows up in the next pending
region's start). -/
def uregex_findNext (m : Matcher) (ec : UErrorCode) :
    Bool × Matcher × UErrorCode :=
  if U_SUCCESS ec = false then (false, m, ec)
  else if m.fault then (false, m, .other)
  else
    match m.current with
    | none => (false, m, .other)
    | some i =>
      let af := match m.matchSpans[i]? with
        | some p => p.2
        | none => m.appendFrom
      match m.matchSpans[i + 1]? with
      | some _ => (true, { m with current := some (i + 1), appendFrom := af }, ec)
      | none => (false, { m with current := none, appendFrom := af }, ec)

/-- Modelled from the spec: `uregex_end(m, 0, ec)` — exclusive end offset of
the current match's full span; an error when there is no current match. -/
def uregex_end (m : Matcher) (ec : UErrorCode) : Nat × UErrorCode :=
  if U_SUCCESS ec = false then (0, ec)
  else if m.fault then (0, .other)
  else
    match m.current with
    | some i =>
      match m.matchSpans[i]? with
      | some p => (p.2, ec)
      | none => (0, .other)
    | none => (0, .other)

/-- Modelled from the spec: `uregex_getText` — the input text the matcher is
bound to. -/
def uregex_getText (m : Matcher) (ec : UErrorCode) : List Nat × UErrorCode :=
  if U_SUCCESS ec = false then (m.text, ec)
  else if m.fault then (m.text, .other)
  else (m.text, ec)

/-- Modelled from the spec: `uregex_appendReplacement` — append the input
text from the append position up to the start of the current match, then
the replacement, into the destination at `pos` with the given remaining
`capacity`.  If the needed length exceeds the capacity, nothing is written
and buffer-overflow is signalled together with the needed length (reported
short by `shortReport` for a misbehaving matcher).  Returns
`(reportedLength, buffer, matcher, error)`. -/
def uregex_appendReplacement (m : Matcher) (repl : List Nat) (buf : List Nat)
    (pos : Nat) (capacity : Int) (ec : UErrorCode) :
    Nat × List Nat × Matcher × UErrorCode :=
  if U_SUCCESS ec = false then (0, buf, m, ec)
  else if m.fault then (0, buf, m, .other)
  else
    match m.current with
    | none => (0, buf, m, .other)
    | some i =>
      match m.matchSpans[i]? with
      | none => (0, buf, m, .other)
      | some p =>
        let pending := slice m.text m.appendFrom p.1 ++ repl
        let n := pending.length
        if (n : Int) > capacity then (n - m.shortReport, buf, m, .overflow)
        else (n, writeAt buf pos pending, { m with appendFrom := p.2 }, ec)

/-- Modelled from the spec: `uregex_appendTail` — append the input text from
the append position to the end of the text, with the same
overflow-signalling protocol as `uregex_appendReplacement`. -/
def uregex_appendTail (m : Matcher) (buf : List Nat) (pos : Nat)
    (capacity : Int) (ec : UErrorCode) : Nat × List Nat × Matcher × UErrorCode :=
  if U_SUCCESS ec = false then (0, buf, m, ec)
  else if m.fault then (0, buf, m, .other)
  else
    let pending := m.text.drop m.appendFrom
    let n := pending.length
    if (n : Int) > capacity then (n - m.shortReport, buf, m, .overflow)
    else (n, writeAt buf pos pending, { m with appendFrom := m.text.length }, ec)

/-- `appendHead` from `file.cpp` (lines 13–21): copy the first `size` units
of the matcher's text to the start of the buffer, growing it first when it
is smaller than `size`, and set the write cursor to `size`.  No-op when
`size = 0` or when the error check after `uregex_getText` fails.  Returns
`(matcher, buffer, cursor, error)`. -/
def appendHead (m : Matcher) (buf : List Nat) (pos : Nat) (ec : UErrorCode)
    (size : Nat) : Matcher × List Nat × Nat × UErrorCode :=
  if size = 0 then (m, buf, pos, ec)
  else
    match uregex_getText m ec with
    | (text, ec1) =>
      if ec1 ≠ .zero then (m, buf, pos, ec1)
      else
        let buf1 := if buf.length < size then resize buf size else buf
        (m, writeAt buf1 0 (text.take size), size, ec1)

/-- `tryToAppendReplacement` from `file.cpp` (lines 23–28): guard against an
empty buffer (`&buf.at(0)` would throw), then delegate to the matcher with
the remaining capacity `buf.length - pos`.  Returns
`(reportedLength, buffer, matcher, error)`. -/
def tryToAppendReplacement (m : Matcher) (buf : List Nat) (pos : Nat)
    (ec : UErrorCode) (repl : List Nat) : Nat × List Nat × Matcher × UErrorCode :=
  if buf.isEmpty then (0, buf, m, ec)
  else uregex_appendReplacement m repl buf pos ((buf.length : Int) - pos) ec

/-- `appendReplacement` from `file.cpp` (lines 30–39): try once; on
buffer-overflow resize the buffer to `pos + reportedLength`, clear the
error, retry the identical call, and in every case advance the cursor by
the first call's reported length. -/
def appendReplacement (m : Matcher) (buf : List Nat) (pos : Nat)
    (ec : UErrorCode) (repl : List Nat) : Matcher × List Nat × Nat × UErrorCode :=
  match tryToAppendReplacement m buf pos ec repl with
  | (sz, buf1, m1, ec1) =>
    if ec1 = .overflow then
      match tryToAppendReplacement m1 (resize buf1 (pos + sz)) pos .zero repl with
      | (_, buf2, m2, ec2) => (m2, buf2, pos + sz, ec2)
    else (m1, buf1, pos + sz, ec1)

/-- `tryToAppendTail` from `file.cpp` (lines 41–46). -/
def tryToAppendTail (m : Matcher) (buf : List Nat) (pos : Nat)
    (ec : UErrorCode) : Nat × List Nat × Matcher × UErrorCode :=
  if buf.isEmpty then (0, buf, m, ec)
  else uregex_appendTail m buf pos ((buf.length : Int) - pos) ec

/-- `appendTail` from `file.cpp` (lines 48–57): same try/resize/retry
protocol as `appendReplacement`. -/
def appendTail (m : Matcher) (buf : List Nat) (pos : Nat) (ec : UErrorCode) :
    Matcher × List Nat × Nat × UErrorCode :=
  match tryToAppendTail m buf pos ec with
  | (sz, buf1, m1, ec1) =>
    if ec1 = .overflow then
      match tryToAppendTail m1 (resize buf1 (pos + sz)) pos .zero with
      | (_, buf2, m2, ec2) => (m2, buf2, pos + sz, ec2)
    else (m1, buf1, pos + sz, ec1)

/-- The `for (int i = 1; i < occurrence && found; ++i)` skip loop of
`replace`, with fuel equal to the number of iterations the counter allows
(`(occurrence - 1).toNat`).  Threads `(matcher, error, found,
end_of_previous_match)` and additionally records, for the specification,
the list of end offsets returned by `uregex_end` and the number of
`uregex_findNext` calls made. -/
def skipLoop : Nat → Matcher → UErrorCode → Bool → Nat → List Nat → Nat →
    Matcher × UErrorCode × Bool × Nat × List Nat × Nat
  | 0, m, ec, found, endPrev, ends, cnt => (m, ec, found, endPrev, ends, cnt)
  | n + 1, m, ec, found, endPrev, ends, cnt =>
    if found then
      match uregex_end m ec with
      | (e, ec1) =>
        match uregex_findNext m ec1 with
        | (f, m1, ec2) => skipLoop n m1 ec2 f e (ends ++ [e]) (cnt + 1)
    else (m, ec, found, endPrev, ends, cnt)

/-- The `do { appendReplacement(...); } while (occurrence == 0 &&
uregex_findNext(...))` loop of `replace`.  The fuel is an upper bound on the
number of iterations (each continuing iteration strictly advances the
matcher's current index, so `matchSpans.length + 1` always suffices).  The last
component counts the `appendReplacement` calls performed. -/
def replLoop : Nat → Int → List Nat → Matcher → List Nat → Nat → UErrorCode →
    Nat → Matcher × List Nat × Nat × UErrorCode × Nat
  | 0, _, _, m, buf, pos, ec, calls => (m, buf, pos, ec, calls)
  | fuel + 1, occ, repl, m, buf, pos, ec, calls =>
    match appendReplacement m buf pos ec repl with
    | (m1, buf1, pos1, ec1) =>
      if occ = 0 then
        match uregex_findNext m1 ec1 with
        | (f, m2, ec2) =>
          if f then replLoop fuel occ repl m2 buf1 pos1 ec2 (calls + 1)
          else (m2, buf1, pos1, ec2, calls + 1)
      else (m1, buf1, pos1, ec1, calls + 1)

/-- The result of `replace`: either the `original` pointer returned
unchanged (no ownership transfer, no allocation) or a `fresh`ly allocated
buffer with the given character units. -/
inductive ReplaceOut where
  | original
  | fresh (data : List Nat)
deriving DecidableEq, Repr

/-- `sizeof(UChar)` — a UTF-16 code unit, 2 bytes. -/
def sizeof_UChar : Nat := 2

/-- `sizeof(UChar*)` — a pointer, 8 bytes on the LP64 targets this cgo code
is built for. -/
def sizeof_UCharPtr : Nat := 8

/-- What `replace` returns and, for the specification, what it did:
`out`/`returnSize` are the C function's observable results;
`allocBytes`/`copyBytes`/`stagingBytes` are the byte counts of the final
`malloc`, of the `memcpy` read, and of the staging buffer it reads from;
`replCalls`, `skipFindNexts`, `skipEnds` and `headCall` record the
`appendReplacement` call count, the skip loop's `uregex_findNext` call
count, the end offsets the skip loop recorded, and the `size` argument of
the `appendHead` call (`none` when `replace` returned early); `finalEC` is
the local error code at return (the C interface never surfaces it). -/
structure ReplaceResult where
  out : ReplaceOut
  returnSize : Nat
  allocBytes : Nat
  copyBytes : Nat
  stagingBytes : Nat
  replCalls : Nat
  skipFindNexts : Nat
  skipEnds : List Nat
  headCall : Option Nat
  finalEC : UErrorCode
deriving DecidableEq, Repr

/-- `replace` from `file.cpp` (lines 59–84), statement by statement:
set `*returnSize = originalSize`; find from `start`; run the skip loop
`occurrence - 1` times while matches are found; return the original text if
nothing qualifying was found and no error occurred; otherwise resize the
staging buffer to `originalSize`, append the head
(`max(end_of_previous_match, start)` units), run the replacement loop,
append the tail, truncate to the cursor, and build the result with
`malloc(size * sizeof(UChar*))` / `memcpy(..., size * sizeof(UChar*))`
(the byte counts of which are recorded verbatim, pointer-size and all). -/
def replace (regexp : Matcher) (replacement : List Nat) (originalSize : Nat)
    (start : Nat) (occurrence : Int) : ReplaceResult :=
  match uregex_find regexp start .zero with
  | (found0, m0, ec1) =>
    match skipLoop (occurrence - 1).toNat m0 ec1 found0 0 [] 0 with
    | (m1, ec2, found, endPrev, ends, fnCnt) =>
      if found = false ∧ U_SUCCESS ec2 = true then
        { out := .original, returnSize := originalSize, allocBytes := 0,
          copyBytes := 0, stagingBytes := 0, replCalls := 0,
          skipFindNexts := fnCnt, skipEnds := ends, headCall := none,
          finalEC := ec2 }
      else
        let buf1 := resize [] originalSize
        let headSize := Nat.max endPrev start
        match appendHead m1 buf1 0 ec2 headSize with
        | (m2, buf2, pos2, ec3) =>
          match (if found then
                  replLoop (m2.matchSpans.length + 1) occurrence replacement
                    m2 buf2 pos2 ec3 0
                 else (m2, buf2, pos2, ec3, 0)) with
          | (m3, buf3, pos3, ec4, calls) =>
            match appendTail m3 buf3 pos3 ec4 with
            | (_, buf4, pos4, ec5) =>
              let buf5 := resize buf4 pos4
              { out := .fresh buf5, returnSize := buf5.length,
                allocBytes := buf5.length * sizeof_UCharPtr,
                copyBytes := buf5.length * sizeof_UCharPtr,
                stagingBytes := buf5.length * sizeof_UChar,
                replCalls := calls, skipFindNexts := fnCnt, skipEnds := ends,
                headCall := some headSize, finalEC := ec5 }

/-- Well-formedness of a bound matcher: the match spans are ordered and
non-overlapping, and each lies within the text. -/
def Matcher.WF (m : Matcher) : Prop :=
  m.matchSpans.Pairwise (fun p q => p.2 ≤ q.1) ∧
    ∀ p ∈ m.matchSpans, p.1 ≤ p.2 ∧ p.2 ≤ m.text.length

/-- Number of match spans beginning at or after `start` — the matches
`replace` can reach when searching from `start`. -/
def countFrom (m : Matcher) (start : Nat) : Nat :=
  (m.matchSpans.filter (fun p => start ≤ p.1)).length

/-- "No qualifying match" for an occurrence selector (spec §4.3): for a
selector of at least 1, fewer than `occ` matches exist at or after `start`;
otherwise (replace-all, or a negative selector) no match exists there at
all. -/
def noQual (m : Matcher) (start : Nat) (occ : Int) : Prop :=
  if 1 ≤ occ then (countFrom m start : Int) < occ else countFrom m start = 0

/-- End offset of the match span at index `j` (0 when out of range). -/
def endAt (m : Matcher) (j : Nat) : Nat :=
  (m.matchSpans[j]?.map Prod.snd).getD 0

/-- End offset of the last match the skip loop stepped over when the
selector is `k` and the first qualifying match has index `i0`; 0 when no
match was skipped. -/
def lastSkippedEnd (m : Matcher) (i0 k : Nat) : Nat :=
  if k ≤ 1 then 0 else endAt m (i0 + (k - 2))


/-! ### List-level helper lemmas -/

theorem length_resize (l : List Nat) (n : Nat) : (resize l n).length = n := by
  simp [resize]
  omega

theorem resize_eq_take (l : List Nat) (n : Nat) (h : n ≤ l.length) :
    resize l n = l.take n := by
  simp [resize, Nat.sub_eq_zero_of_le h]

theorem take_resize (l : List Nat) (n p : Nat) (hp : p ≤ n) (hl : p ≤ l.length) :
    (resize l n).take p = l.take p := by
  simp [resize, List.take_append_eq_append_take, List.take_take,
    Nat.min_eq_left hp, List.length_take]
  have : p - min n l.length = 0 := by omega
  simp [this]

theorem length_writeAt (l : List Nat) (p : Nat) (d : List Nat)
    (h : p + d.length ≤ l.length) : (writeAt l p d).length = l.length := by
  simp [writeAt]
  omega

theorem take_writeAt (l : List Nat) (p : Nat) (d : List Nat) (h : p ≤ l.length) :
    (writeAt l p d).take (p + d.length) = l.take p ++ d := by
  have h1 : min p l.length = p := Nat.min_eq_left h
  have h2 : p + d.length - min p l.length = d.length := by omega
  simp [writeAt, List.take_append_eq_append_take, List.take_take,
    List.length_take, h1, h2]

theorem take_append_left (xs ys : List Nat) : (xs ++ ys).take xs.length = xs := by
  simp

/-! ### Claim theorems: closed evaluations -/

/-- Claim C6: at finalization the staging buffer is truncated to the cursor
and the returned length equals the units written, but the final `malloc` and
`memcpy` use `sizeof(UChar*)` (8 bytes) instead of `sizeof(UChar)` (2
bytes): on a run producing 3 result units the code allocates and copies 24
bytes while the staging buffer holds only 6 bytes, so the copy reads out of
bounds and the allocation is not "exactly resultLength character units".
This evaluates the embedded code at such an input. -/
theorem claim_C6_alloc_eval :
    replace { text := [1, 2, 3], matchSpans := [(1, 2)] } [9] 3 0 1 =
      { out := .fresh [1, 9, 3], returnSize := 3, allocBytes := 24,
        copyBytes := 24, stagingBytes := 6, replCalls := 1,
        skipFindNexts := 0, skipEnds := [], headCall := some 0,
        finalEC := .zero } ∧
    3 * sizeof_UChar = 6 ∧ 6 < 24 := by
  exact ⟨rfl, rfl, by omega⟩

/-- Claim C7 (counterexample): with a matcher that under-reports the needed
length by one (the spec §7 "reported required size was wrong"
inconsistency), the retry after the resize overflows a second time, yet
`replace` neither aborts nor treats it as fatal: the cursor is advanced by
the reported size as if the append had succeeded, the overflow code is left
set internally (`finalEC = overflow`, never surfaced — the interface has no
error channel), and a freshly built buffer of leftover zero units is
returned. -/
theorem claim_C7_counterexample :
    replace { text := [1, 1, 1, 1], matchSpans := [(0, 2)], shortReport := 1 }
        [5, 5, 5, 5, 5, 5] 4 0 1 =
      { out := .fresh [0, 0, 0, 0, 0], returnSize := 5, allocBytes := 40,
        copyBytes := 40, stagingBytes := 10, replCalls := 1,
        skipFindNexts := 0, skipEnds := [], headCall := some 0,
        finalEC := .overflow } := by
  rfl

/-- Claim C4 (counterexample): when the matcher faults during the initial
find (a non-success, non-overflow code), `replace` does not abort and does
not surface the error — the early no-match return is suppressed because
`U_SUCCESS` fails, execution falls through the append phase (whose calls
are entry-guarded no-ops), and a newly built zero-length buffer is
returned. -/
theorem claim_C4_counterexample :
    (replace { text := [7, 8], matchSpans := [(0, 1)], fault := true }
        [9] 2 0 1).out = .fresh [] ∧
    (replace { text := [7, 8], matchSpans := [(0, 1)], fault := true }
        [9] 2 0 1).finalEC = .other ∧
    (replace { text := [7, 8], matchSpans := [(0, 1)], fault := true }
        [9] 2 0 1).returnSize = 0 := by
  exact ⟨rfl, rfl, rfl⟩

/-! ### Characterisation of the try-append operations -/

/-- Every call to `tryToAppendReplacement` either returns `(0, buf, m, _)`
unchanged (empty-buffer guard, entry error check, matcher fault, invalid
state), or reaches the matcher with a valid current match and either
overflows (reporting the needed length, possibly short) or writes the
pending region at the cursor. -/
theorem tryRepl_spec (m : Matcher) (buf : List Nat) (pos : Nat)
    (ec : UErrorCode) (repl : List Nat) :
    (∃ r, tryToAppendReplacement m buf pos ec repl = (0, buf, m, r)) ∨
    (∃ i p, m.current = some i ∧ m.matchSpans[i]? = some p ∧
      (((buf.length : Int) - pos <
          (slice m.text m.appendFrom p.1).length + repl.length ∧
        tryToAppendReplacement m buf pos ec repl =
          ((slice m.text m.appendFrom p.1).length + repl.length -
            m.shortReport, buf, m, .overflow)) ∨
       (((slice m.text m.appendFrom p.1).length + repl.length : Int) ≤
          (buf.length : Int) - pos ∧
        tryToAppendReplacement m buf pos ec repl =
          ((slice m.text m.appendFrom p.1).length + repl.length,
            writeAt buf pos (slice m.text m.appendFrom p.1 ++ repl),
            { m with appendFrom := p.2 }, ec)))) := by
  by_cases hb : buf.isEmpty
  · exact Or.inl ⟨ec, by simp [tryToAppendReplacement, hb]⟩
  by_cases hs : U_SUCCESS ec = false
  · exact Or.inl ⟨ec, by simp [tryToAppendReplacement, hb,
      uregex_appendReplacement, hs]⟩
  by_cases hf : m.fault
  · exact Or.inl ⟨.other, by simp [tryToAppendReplacement, hb,
      uregex_appendReplacement, hs, hf]⟩
  cases hc : m.current with
  | none => exact Or.inl ⟨.other, by simp [tryToAppendReplacement, hb,
      uregex_appendReplacement, hs, hf, hc]⟩
  | some i =>
    cases hg : m.matchSpans[i]? with
    | none => exact Or.inl ⟨.other, by simp [tryToAppendReplacement, hb,
        uregex_appendReplacement, hs, hf, hc, hg]⟩
    | some p =>
      refine Or.inr ⟨i, p, rfl, hg, ?_⟩
      by_cases hov : (buf.length : Int) - pos <
          (slice m.text m.appendFrom p.1).length + repl.length
      · exact Or.inl ⟨hov, by simp [tryToAppendReplacement, hb,
          uregex_appendReplacement, hs, hf, hc, hg, hov]⟩
      · exact Or.inr ⟨by omega, by simp [tryToAppendReplacement, hb,
          uregex_appendReplacement, hs, hf, hc, hg, hov]⟩

/-- Counterpart of `tryRepl_spec` for `tryToAppendTail`. -/
theorem tryTail_spec (m : Matcher) (buf : List Nat) (pos : Nat)
    (ec : UErrorCode) :
    (∃ r, tryToAppendTail m buf pos ec = (0, buf, m, r)) ∨
    ((buf.length : Int) - pos < (m.text.length - m.appendFrom : Nat) ∧
      tryToAppendTail m buf pos ec =
        (m.text.length - m.appendFrom - m.shortReport, buf, m, .overflow)) ∨
    (((m.text.length - m.appendFrom : Nat) : Int) ≤ (buf.length : Int) - pos ∧
      tryToAppendTail m buf pos ec =
        (m.text.length - m.appendFrom,
          writeAt buf pos (m.text.drop m.appendFrom),
          { m with appendFrom := m.text.length }, ec)) := by
  by_cases hb : buf.isEmpty
  · exact Or.inl ⟨ec, by simp [tryToAppendTail, hb]⟩
  by_cases hs : U_SUCCESS ec = false
  · exact Or.inl ⟨ec, by simp [tryToAppendTail, hb, uregex_appendTail, hs]⟩
  by_cases hf : m.fault
  · exact Or.inl ⟨.other, by simp [tryToAppendTail, hb, uregex_appendTail,
      hs, hf]⟩
  by_cases hov : (buf.length : Int) - pos <
      ((m.text.length - m.appendFrom : Nat) : Int)
  · exact Or.inr (Or.inl ⟨hov, by simp [tryToAppendTail, hb,
      uregex_appendTail, hs, hf, hov]⟩)
  · exact Or.inr (Or.inr ⟨by omega, by simp [tryToAppendTail, hb,
      uregex_appendTail, hs, hf, hov]⟩)

/-- `tryToAppendReplacement` never changes the buffer length. -/
theorem tryRepl_len (m : Matcher) (buf : List Nat) (pos : Nat)
    (ec : UErrorCode) (repl : List Nat) :
    (tryToAppendReplacement m buf pos ec repl).2.1.length = buf.length := by
  rcases tryRepl_spec m buf pos ec repl with ⟨r, h⟩ | ⟨i, p, _, _, ⟨_, h⟩ | ⟨hle, h⟩⟩
  · rw [h]
  · rw [h]
  · rw [h]
    have hlen : (slice m.text m.appendFrom p.1 ++ repl).length =
        (slice m.text m.appendFrom p.1).length + repl.length :=
      List.length_append _ _
    exact length_writeAt _ _ _ (by omega)

/-- `tryToAppendTail` never changes the buffer length. -/
theorem tryTail_len (m : Matcher) (buf : List Nat) (pos : Nat)
    (ec : UErrorCode) :
    (tryToAppendTail m buf pos ec).2.1.length = buf.length := by
  rcases tryTail_spec m buf pos ec with ⟨r, h⟩ | ⟨_, h⟩ | ⟨hle, h⟩
  · rw [h]
  · rw [h]
  · rw [h]
    have hlen : (m.text.drop m.appendFrom).length =
        m.text.length - m.appendFrom := List.length_drop _ _
    exact length_writeAt _ _ _ (by omega)

/-- When `tryToAppendReplacement` does not end in overflow, the cursor plus
the reported length stays within the buffer. -/
theorem tryRepl_sz_le (m : Matcher) (buf : List Nat) (pos : Nat)
    (ec : UErrorCode) (repl : List Nat) (h1 : pos ≤ buf.length)
    (h2 : (tryToAppendReplacement m buf pos ec repl).2.2.2 ≠ .overflow) :
    pos + (tryToAppendReplacement m buf pos ec repl).1 ≤ buf.length := by
  rcases tryRepl_spec m buf pos ec repl with ⟨r, h⟩ | ⟨i, p, _, _, ⟨_, h⟩ | ⟨hle, h⟩⟩
  · rw [h]
    simpa using h1
  · rw [h] at h2
    simp at h2
  · rw [h]
    simp only
    omega

/-- When `tryToAppendTail` does not end in overflow, the cursor plus the
reported length stays within the buffer. -/
theorem tryTail_sz_le (m : Matcher) (buf : List Nat) (pos : Nat)
    (ec : UErrorCode) (h1 : pos ≤ buf.length)
    (h2 : (tryToAppendTail m buf pos ec).2.2.2 ≠ .overflow) :
    pos + (tryToAppendTail m buf pos ec).1 ≤ buf.length := by
  rcases tryTail_spec m buf pos ec with ⟨r, h⟩ | ⟨_, h⟩ | ⟨hle, h⟩
  · rw [h]
    simpa using h1
  · rw [h] at h2
    simp at h2
  · rw [h]
    simp only
    omega

/-- Computation of `appendHead` on a clean error state. -/
theorem appendHead_zero_ec (m : Matcher) (buf : List Nat) (pos : Nat)
    (size : Nat) (hf : m.fault = false) :
    appendHead m buf pos .zero size =
      (m,
       if size = 0 then buf
       else writeAt (if buf.length < size then resize buf size else buf) 0
         (m.text.take size),
       if size = 0 then pos else size, .zero) := by
  by_cases hs : size = 0 <;>
    simp [appendHead, hs, uregex_getText, U_SUCCESS, hf]

/-- `appendHead` is a no-op on a failed error state. -/
theorem appendHead_fail (m : Matcher) (buf : List Nat) (pos : Nat)
    (ec : UErrorCode) (size : Nat) (he : ec ≠ .zero) :
    appendHead m buf pos ec size = (m, buf, pos, ec) := by
  have hs : U_SUCCESS ec = false := by
    cases ec <;> simp_all [U_SUCCESS]
  by_cases h0 : size = 0 <;>
    simp [appendHead, h0, uregex_getText, hs, he]

/-! ### The buffer invariant (cursor within buffer) -/

/-- `appendHead` leaves the cursor within the buffer. -/
theorem appendHead_pos_le (m : Matcher) (buf : List Nat) (pos : Nat)
    (ec : UErrorCode) (size : Nat) (h : pos ≤ buf.length) :
    (appendHead m buf pos ec size).2.2.1 ≤
      (appendHead m buf pos ec size).2.1.length := by
  by_cases h0 : size = 0
  · simpa [appendHead, h0] using h
  rcases hgt : uregex_getText m ec with ⟨text, ec1⟩
  by_cases he : ec1 = .zero
  · have hd : (text.take size).length ≤ size := by simp
    by_cases hlt : buf.length < size
    · have hw : (writeAt (resize buf size) 0 (text.take size)).length = size := by
        have h1 := length_writeAt (resize buf size) 0 (text.take size)
          (by rw [length_resize]; omega)
        rw [h1, length_resize]
      simp [appendHead, h0, hgt, he, hlt, hw]
    · have hw : (writeAt buf 0 (text.take size)).length = buf.length :=
        length_writeAt _ _ _ (by omega)
      simp [appendHead, h0, hgt, he, hlt, hw]
      omega
  · simpa [appendHead, h0, hgt, he] using h

/-- `appendReplacement` leaves the cursor within the buffer. -/
theorem appendReplacement_pos_le (m : Matcher) (buf : List Nat) (pos : Nat)
    (ec : UErrorCode) (repl : List Nat) (h : pos ≤ buf.length) :
    (appendReplacement m buf pos ec repl).2.2.1 ≤
      (appendReplacement m buf pos ec repl).2.1.length := by
  rcases htry : tryToAppendReplacement m buf pos ec repl with ⟨sz, buf1, m1, ec1⟩
  have hlen1 : buf1.length = buf.length := by
    have h1 := tryRepl_len m buf pos ec repl
    rw [htry] at h1
    exact h1
  by_cases hov : ec1 = .overflow
  · rcases htry2 : tryToAppendReplacement m1 (resize buf1 (pos + sz)) pos
        .zero repl with ⟨sz2, buf2, m2, ec2⟩
    have hlen2 : buf2.length = pos + sz := by
      have h2 := tryRepl_len m1 (resize buf1 (pos + sz)) pos .zero repl
      rw [htry2] at h2
      rw [h2, length_resize]
    simp [appendReplacement, htry, hov, htry2, hlen2]
  · have hsz : pos + sz ≤ buf.length := by
      have h2 := tryRepl_sz_le m buf pos ec repl h (by rw [htry]; simpa using hov)
      rw [htry] at h2
      simpa using h2
    simp [appendReplacement, htry, hov, hlen1]
    omega

/-- `appendTail` leaves the cursor within the buffer. -/
theorem appendTail_pos_le (m : Matcher) (buf : List Nat) (pos : Nat)
    (ec : UErrorCode) (h : pos ≤ buf.length) :
    (appendTail m buf pos ec).2.2.1 ≤ (appendTail m buf pos ec).2.1.length := by
  rcases htry : tryToAppendTail m buf pos ec with ⟨sz, buf1, m1, ec1⟩
  have hlen1 : buf1.length = buf.length := by
    have h1 := tryTail_len m buf pos ec
    rw [htry] at h1
    exact h1
  by_cases hov : ec1 = .overflow
  · rcases htry2 : tryToAppendTail m1 (resize buf1 (pos + sz)) pos
        .zero with ⟨sz2, buf2, m2, ec2⟩
    have hlen2 : buf2.length = pos + sz := by
      have h2 := tryTail_len m1 (resize buf1 (pos + sz)) pos .zero
      rw [htry2] at h2
      rw [h2, length_resize]
    simp [appendTail, htry, hov, htry2, hlen2]
  · have hsz : pos + sz ≤ buf.length := by
      have h2 := tryTail_sz_le m buf pos ec h (by rw [htry]; simpa using hov)
      rw [htry] at h2
      simpa using h2
    simp [appendTail, htry, hov, hlen1]
    omega

/-- Claim C8: the buffer invariant `position ≤ capacity` holds after every
append operation (`appendHead`, `appendReplacement`, `appendTail`): each
append either fits within the current buffer, grows the buffer before
writing, or leaves an overflow signal without writing past the end — in
every case the resulting cursor is at most the resulting buffer length. -/
theorem claim_C8_buffer_invariant :
    (∀ (m : Matcher) (buf : List Nat) (pos : Nat) (ec : UErrorCode)
        (size : Nat), pos ≤ buf.length →
      (appendHead m buf pos ec size).2.2.1 ≤
        (appendHead m buf pos ec size).2.1.length) ∧
    (∀ (m : Matcher) (buf : List Nat) (pos : Nat) (ec : UErrorCode)
        (repl : List Nat), pos ≤ buf.length →
      (appendReplacement m buf pos ec repl).2.2.1 ≤
        (appendReplacement m buf pos ec repl).2.1.length) ∧
    (∀ (m : Matcher) (buf : List Nat) (pos : Nat) (ec : UErrorCode),
        pos ≤ buf.length →
      (appendTail m buf pos ec).2.2.1 ≤ (appendTail m buf pos ec).2.1.length) :=
  ⟨fun m buf pos ec size h => appendHead_pos_le m buf pos ec size h,
   fun m buf pos ec repl h => appendReplacement_pos_le m buf pos ec repl h,
   fun m buf pos ec h => appendTail_pos_le m buf pos ec h⟩

/-- Witness for C8: the invariant at concrete calls (one per operation,
including one that overflows and grows). -/
theorem claim_C8_witness :
    ((0 : Nat) ≤ ([0] : List Nat).length) ∧
    (appendHead ⟨[1, 2], [(0, 1)], false, 0, some 0, 0⟩ [0] 0 .zero 2).2.2.1 ≤
      (appendHead ⟨[1, 2], [(0, 1)], false, 0, some 0, 0⟩ [0] 0 .zero 2).2.1.length ∧
    (appendReplacement ⟨[1, 2], [(0, 1)], false, 0, some 0, 0⟩ [0] 0 .zero
        [9, 9, 9]).2.2.1 ≤
      (appendReplacement ⟨[1, 2], [(0, 1)], false, 0, some 0, 0⟩ [0] 0 .zero
        [9, 9, 9]).2.1.length ∧
    (appendTail ⟨[1, 2], [(0, 1)], false, 0, some 0, 1⟩ [0] 0 .zero).2.2.1 ≤
      (appendTail ⟨[1, 2], [(0, 1)], false, 0, some 0, 1⟩ [0] 0 .zero).2.1.length :=
  ⟨by decide,
   claim_C8_buffer_invariant.1 _ [0] 0 .zero 2 (by decide),
   claim_C8_buffer_invariant.2.1 _ [0] 0 .zero [9, 9, 9] (by decide),
   claim_C8_buffer_invariant.2.2 _ [0] 0 .zero (by decide)⟩

/-! ### Exact behaviour of the append wrappers under an honest matcher -/

/-- Computation of `tryToAppendReplacement` on a clean error state with a
valid current match and a non-empty buffer. -/
theorem tryRepl_eq_of_valid (m : Matcher) (buf : List Nat) (pos : Nat)
    (repl : List Nat) (i : Nat) (p : Nat × Nat)
    (hbe : buf.isEmpty = false) (hf : m.fault = false)
    (hc : m.current = some i) (hg : m.matchSpans[i]? = some p) :
    tryToAppendReplacement m buf pos .zero repl =
      if (buf.length : Int) - pos <
          (slice m.text m.appendFrom p.1).length + repl.length then
        ((slice m.text m.appendFrom p.1).length + repl.length - m.shortReport,
          buf, m, .overflow)
      else
        ((slice m.text m.appendFrom p.1).length + repl.length,
          writeAt buf pos (slice m.text m.appendFrom p.1 ++ repl),
          { m with appendFrom := p.2 }, .zero) := by
  by_cases hov : (buf.length : Int) - pos <
      (slice m.text m.appendFrom p.1).length + repl.length <;>
    simp [tryToAppendReplacement, hbe, uregex_appendReplacement, U_SUCCESS,
      hf, hc, hg, hov]

/-- Computation of `tryToAppendTail` on a clean error state with a
non-empty buffer. -/
theorem tryTail_eq_of_valid (m : Matcher) (buf : List Nat) (pos : Nat)
    (hbe : buf.isEmpty = false) (hf : m.fault = false) :
    tryToAppendTail m buf pos .zero =
      if (buf.length : Int) - pos < ((m.text.length - m.appendFrom : Nat) : Int)
      then (m.text.length - m.appendFrom - m.shortReport, buf, m, .overflow)
      else (m.text.length - m.appendFrom,
        writeAt buf pos (m.text.drop m.appendFrom),
        { m with appendFrom := m.text.length }, .zero) := by
  by_cases hov : (buf.length : Int) - pos <
      ((m.text.length - m.appendFrom : Nat) : Int) <;>
    simp [tryToAppendTail, hbe, uregex_appendTail, U_SUCCESS, hf, hov]

/-- Exact behaviour of `appendReplacement` under an honest matcher
(`shortReport = 0`, no fault) with a valid current match, a clean error
state and a non-empty buffer: whether or not the first try overflows, the
call ends with a clean error, the cursor advanced by the needed length, the
pending region and replacement written at the old cursor, and the buffer
grown exactly when needed. -/
theorem appendReplacement_ok (m : Matcher) (buf : List Nat) (pos : Nat)
    (repl : List Nat) (i : Nat) (p : Nat × Nat)
    (hf : m.fault = false) (hsr : m.shortReport = 0)
    (hc : m.current = some i) (hg : m.matchSpans[i]? = some p)
    (hpos : pos ≤ buf.length) (hb : buf ≠ []) :
    ∃ B, appendReplacement m buf pos .zero repl =
        ({ m with appendFrom := p.2 }, B,
          pos + ((slice m.text m.appendFrom p.1).length + repl.length),
          .zero) ∧
      B.take (pos + ((slice m.text m.appendFrom p.1).length + repl.length)) =
        buf.take pos ++ (slice m.text m.appendFrom p.1 ++ repl) ∧
      B.length =
        max buf.length
          (pos + ((slice m.text m.appendFrom p.1).length + repl.length)) := by
  have hbe : buf.isEmpty = false := by
    cases buf with
    | nil => exact absurd rfl hb
    | cons a l => rfl
  have hdl : (slice m.text m.appendFrom p.1 ++ repl).length =
      (slice m.text m.appendFrom p.1).length + repl.length := by simp
  set n1 := (slice m.text m.appendFrom p.1).length + repl.length with hn1
  by_cases hov : (buf.length : Int) - pos < (n1 : Int)
  · have h1 : tryToAppendReplacement m buf pos .zero repl =
        (n1, buf, m, .overflow) := by
      rw [tryRepl_eq_of_valid m buf pos repl i p hbe hf hc hg,
        if_pos (by omega), hsr]
      simp [hn1]
    have hlr : (resize buf (pos + n1)).length = pos + n1 := length_resize _ _
    have hn1pos : 1 ≤ n1 := by omega
    have hbe2 : (resize buf (pos + n1)).isEmpty = false := by
      cases hres : resize buf (pos + n1) with
      | nil =>
        rw [hres] at hlr
        simp at hlr
        omega
      | cons a l => rfl
    have h2 : tryToAppendReplacement m (resize buf (pos + n1)) pos .zero repl =
        (n1, writeAt (resize buf (pos + n1)) pos
          (slice m.text m.appendFrom p.1 ++ repl),
          { m with appendFrom := p.2 }, .zero) := by
      rw [tryRepl_eq_of_valid m (resize buf (pos + n1)) pos repl i p hbe2 hf hc hg,
        if_neg (by rw [hlr]; omega)]
    have happ : appendReplacement m buf pos .zero repl =
        ({ m with appendFrom := p.2 },
          writeAt (resize buf (pos + n1)) pos
            (slice m.text m.appendFrom p.1 ++ repl),
          pos + n1, .zero) := by
      simp [appendReplacement, h1, h2]
    refine ⟨writeAt (resize buf (pos + n1)) pos
      (slice m.text m.appendFrom p.1 ++ repl), happ, ?_, ?_⟩
    · have ht := take_writeAt (resize buf (pos + n1)) pos
        (slice m.text m.appendFrom p.1 ++ repl) (by rw [hlr]; omega)
      rw [hdl] at ht
      rw [ht, take_resize buf (pos + n1) pos (by omega) hpos]
    · have hl := length_writeAt (resize buf (pos + n1)) pos
        (slice m.text m.appendFrom p.1 ++ repl) (by rw [hlr, hdl])
      rw [hl, hlr]
      omega
  · have h1 : tryToAppendReplacement m buf pos .zero repl =
        (n1, writeAt buf pos (slice m.text m.appendFrom p.1 ++ repl),
          { m with appendFrom := p.2 }, .zero) := by
      rw [tryRepl_eq_of_valid m buf pos repl i p hbe hf hc hg,
        if_neg (by omega)]
    have happ : appendReplacement m buf pos .zero repl =
        ({ m with appendFrom := p.2 },
          writeAt buf pos (slice m.text m.appendFrom p.1 ++ repl),
          pos + n1, .zero) := by
      simp [appendReplacement, h1]
    refine ⟨writeAt buf pos (slice m.text m.appendFrom p.1 ++ repl), happ,
      ?_, ?_⟩
    · have ht := take_writeAt buf pos (slice m.text m.appendFrom p.1 ++ repl)
        hpos
      rw [hdl] at ht
      rw [ht]
    · have hl := length_writeAt buf pos (slice m.text m.appendFrom p.1 ++ repl)
        (by rw [hdl]; omega)
      rw [hl]
      omega

/-- Exact behaviour of `appendTail` under an honest matcher with a clean
error state and a non-empty buffer. -/
theorem appendTail_ok (m : Matcher) (buf : List Nat) (pos : Nat)
    (hf : m.fault = false) (hsr : m.shortReport = 0)
    (hpos : pos ≤ buf.length) (hb : buf ≠ []) :
    ∃ B, appendTail m buf pos .zero =
        ({ m with appendFrom := m.text.length }, B,
          pos + (m.text.length - m.appendFrom), .zero) ∧
      B.take (pos + (m.text.length - m.appendFrom)) =
        buf.take pos ++ m.text.drop m.appendFrom ∧
      B.length = max buf.length (pos + (m.text.length - m.appendFrom)) := by
  have hbe : buf.isEmpty = false := by
    cases buf with
    | nil => exact absurd rfl hb
    | cons a l => rfl
  have hdl : (m.text.drop m.appendFrom).length =
      m.text.length - m.appendFrom := List.length_drop _ _
  set n2 := m.text.length - m.appendFrom with hn2
  by_cases hov : (buf.length : Int) - pos < (n2 : Int)
  · have h1 : tryToAppendTail m buf pos .zero = (n2, buf, m, .overflow) := by
      rw [tryTail_eq_of_valid m buf pos hbe hf,
        if_pos (by omega), hsr]
      simp [hn2]
    have hlr : (resize buf (pos + n2)).length = pos + n2 := length_resize _ _
    have hn2pos : 1 ≤ n2 := by omega
    have hbe2 : (resize buf (pos + n2)).isEmpty = false := by
      cases hres : resize buf (pos + n2) with
      | nil =>
        rw [hres] at hlr
        simp at hlr
        omega
      | cons a l => rfl
    have h2 : tryToAppendTail m (resize buf (pos + n2)) pos .zero =
        (n2, writeAt (resize buf (pos + n2)) pos (m.text.drop m.appendFrom),
          { m with appendFrom := m.text.length }, .zero) := by
      rw [tryTail_eq_of_valid m (resize buf (pos + n2)) pos hbe2 hf,
        if_neg (by rw [hlr]; omega)]
    have happ : appendTail m buf pos .zero =
        ({ m with appendFrom := m.text.length },
          writeAt (resize buf (pos + n2)) pos (m.text.drop m.appendFrom),
          pos + n2, .zero) := by
      simp [appendTail, h1, h2]
    refine ⟨writeAt (resize buf (pos + n2)) pos (m.text.drop m.appendFrom),
      happ, ?_, ?_⟩
    · have ht := take_writeAt (resize buf (pos + n2)) pos
        (m.text.drop m.appendFrom) (by rw [hlr]; omega)
      rw [hdl] at ht
      rw [ht, take_resize buf (pos + n2) pos (by omega) hpos]
    · have hl := length_writeAt (resize buf (pos + n2)) pos
        (m.text.drop m.appendFrom) (by rw [hlr, hdl])
      rw [hl, hlr]
      omega
  · have h1 : tryToAppendTail m buf pos .zero =
        (n2, writeAt buf pos (m.text.drop m.appendFrom),
          { m with appendFrom := m.text.length }, .zero) := by
      rw [tryTail_eq_of_valid m buf pos hbe hf, if_neg (by omega)]
    have happ : appendTail m buf pos .zero =
        ({ m with appendFrom := m.text.length },
          writeAt buf pos (m.text.drop m.appendFrom), pos + n2, .zero) := by
      simp [appendTail, h1]
    refine ⟨writeAt buf pos (m.text.drop m.appendFrom), happ, ?_, ?_⟩
    · have ht := take_writeAt buf pos (m.text.drop m.appendFrom) hpos
      rw [hdl] at ht
      rw [ht]
    · have hl := length_writeAt buf pos (m.text.drop m.appendFrom)
        (by rw [hdl]; omega)
      rw [hl]
      omega

/-- Claim C5: whenever the matcher signals buffer overflow on an
`appendReplacement` or `appendTail` try (honest matcher: the reported
length is the needed length), the wrapper resizes the buffer to exactly
`cursor + neededLength`, clears the error, retries the identical call and
succeeds: afterwards the error is clean (the overflow is never surfaced),
the cursor has advanced by exactly the units written, the final buffer has
exactly `cursor + neededLength` units, and the pending text stands written
at the old cursor. -/
theorem claim_C5_overflow_retry :
    (∀ (m : Matcher) (buf : List Nat) (pos : Nat) (repl : List Nat)
        (i : Nat) (p : Nat × Nat),
      m.fault = false → m.shortReport = 0 →
      m.current = some i → m.matchSpans[i]? = some p →
      pos ≤ buf.length → buf ≠ [] →
      (buf.length : Int) - pos <
        (slice m.text m.appendFrom p.1).length + repl.length →
      (tryToAppendReplacement m buf pos .zero repl).2.2.2 = .overflow ∧
      (appendReplacement m buf pos .zero repl).1 =
        { m with appendFrom := p.2 } ∧
      (appendReplacement m buf pos .zero repl).2.2.2 = .zero ∧
      (appendReplacement m buf pos .zero repl).2.2.1 =
        pos + ((slice m.text m.appendFrom p.1).length + repl.length) ∧
      (appendReplacement m buf pos .zero repl).2.1.length =
        pos + ((slice m.text m.appendFrom p.1).length + repl.length) ∧
      (appendReplacement m buf pos .zero repl).2.1.take
          (pos + ((slice m.text m.appendFrom p.1).length + repl.length)) =
        buf.take pos ++ (slice m.text m.appendFrom p.1 ++ repl)) ∧
    (∀ (m : Matcher) (buf : List Nat) (pos : Nat),
      m.fault = false → m.shortReport = 0 →
      pos ≤ buf.length → buf ≠ [] →
      (buf.length : Int) - pos < ((m.text.length - m.appendFrom : Nat) : Int) →
      (tryToAppendTail m buf pos .zero).2.2.2 = .overflow ∧
      (appendTail m buf pos .zero).1 =
        { m with appendFrom := m.text.length } ∧
      (appendTail m buf pos .zero).2.2.2 = .zero ∧
      (appendTail m buf pos .zero).2.2.1 =
        pos + (m.text.length - m.appendFrom) ∧
      (appendTail m buf pos .zero).2.1.length =
        pos + (m.text.length - m.appendFrom) ∧
      (appendTail m buf pos .zero).2.1.take
          (pos + (m.text.length - m.appendFrom)) =
        buf.take pos ++ m.text.drop m.appendFrom) := by
  constructor
  · intro m buf pos repl i p hf hsr hc hg hpos hb hov
    have hbe : buf.isEmpty = false := by
      cases buf with
      | nil => exact absurd rfl hb
      | cons a l => rfl
    obtain ⟨B, h1, h2, h3⟩ :=
      appendReplacement_ok m buf pos repl i p hf hsr hc hg hpos hb
    refine ⟨?_, ?_, ?_, ?_, ?_, ?_⟩
    · rw [tryRepl_eq_of_valid m buf pos repl i p hbe hf hc hg, if_pos hov]
    · rw [h1]
    · rw [h1]
    · rw [h1]
    · rw [h1]
      simp only
      rw [h3]
      omega
    · rw [h1]
      exact h2
  · intro m buf pos hf hsr hpos hb hov
    have hbe : buf.isEmpty = false := by
      cases buf with
      | nil => exact absurd rfl hb
      | cons a l => rfl
    obtain ⟨B, h1, h2, h3⟩ := appendTail_ok m buf pos hf hsr hpos hb
    refine ⟨?_, ?_, ?_, ?_, ?_, ?_⟩
    · rw [tryTail_eq_of_valid m buf pos hbe hf, if_pos hov]
    · rw [h1]
    · rw [h1]
    · rw [h1]
    · rw [h1]
      simp only
      rw [h3]
      omega
    · rw [h1]
      exact h2

/-- Witness for C5: a concrete overflowing `appendReplacement` (capacity 1,
needed 3) and a concrete overflowing `appendTail` (capacity 0, needed 2),
each resolved by one resize-and-retry. -/
theorem claim_C5_witness :
    ((([0] : List Nat).length : Int) - (0 : Nat) <
      (slice [1, 2, 3] 0 0).length + ([7, 7, 7] : List Nat).length) ∧
    ((tryToAppendReplacement ⟨[1, 2, 3], [(0, 2)], false, 0, some 0, 0⟩ [0] 0
        .zero [7, 7, 7]).2.2.2 = .overflow ∧
     (appendReplacement ⟨[1, 2, 3], [(0, 2)], false, 0, some 0, 0⟩ [0] 0 .zero
        [7, 7, 7]).1 = ⟨[1, 2, 3], [(0, 2)], false, 0, some 0, 2⟩ ∧
     (appendReplacement ⟨[1, 2, 3], [(0, 2)], false, 0, some 0, 0⟩ [0] 0 .zero
        [7, 7, 7]).2.2.2 = .zero ∧
     (appendReplacement ⟨[1, 2, 3], [(0, 2)], false, 0, some 0, 0⟩ [0] 0 .zero
        [7, 7, 7]).2.2.1 =
       0 + ((slice [1, 2, 3] 0 0).length + ([7, 7, 7] : List Nat).length) ∧
     (appendReplacement ⟨[1, 2, 3], [(0, 2)], false, 0, some 0, 0⟩ [0] 0 .zero
        [7, 7, 7]).2.1.length =
       0 + ((slice [1, 2, 3] 0 0).length + ([7, 7, 7] : List Nat).length) ∧
     (appendReplacement ⟨[1, 2, 3], [(0, 2)], false, 0, some 0, 0⟩ [0] 0 .zero
        [7, 7, 7]).2.1.take
         (0 + ((slice [1, 2, 3] 0 0).length + ([7, 7, 7] : List Nat).length)) =
       ([0] : List Nat).take 0 ++ (slice [1, 2, 3] 0 0 ++ [7, 7, 7])) ∧
    ((([0] : List Nat).length : Int) - (1 : Nat) <
      ((([1, 2, 3] : List Nat).length - 1 : Nat) : Int)) ∧
    ((tryToAppendTail ⟨[1, 2, 3], [], false, 0, none, 1⟩ [0] 1 .zero).2.2.2 =
        .overflow ∧
     (appendTail ⟨[1, 2, 3], [], false, 0, none, 1⟩ [0] 1 .zero).1 =
       ⟨[1, 2, 3], [], false, 0, none, 3⟩ ∧
     (appendTail ⟨[1, 2, 3], [], false, 0, none, 1⟩ [0] 1 .zero).2.2.2 =
       .zero ∧
     (appendTail ⟨[1, 2, 3], [], false, 0, none, 1⟩ [0] 1 .zero).2.2.1 =
       1 + (([1, 2, 3] : List Nat).length - 1) ∧
     (appendTail ⟨[1, 2, 3], [], false, 0, none, 1⟩ [0] 1 .zero).2.1.length =
       1 + (([1, 2, 3] : List Nat).length - 1) ∧
     (appendTail ⟨[1, 2, 3], [], false, 0, none, 1⟩ [0] 1
        .zero).2.1.take (1 + (([1, 2, 3] : List Nat).length - 1)) =
       ([0] : List Nat).take 1 ++ ([1, 2, 3] : List Nat).drop 1) :=
  ⟨by decide,
   claim_C5_overflow_retry.1 ⟨[1, 2, 3], [(0, 2)], false, 0, some 0, 0⟩ [0] 0
     [7, 7, 7] 0 (0, 2) rfl rfl rfl rfl (by decide) (by decide) (by decide),
   by decide,
   claim_C5_overflow_retry.2 ⟨[1, 2, 3], [], false, 0, none, 1⟩ [0] 1
     rfl rfl (by decide) (by decide) (by decide)⟩

/-! ### Failure-propagation lemmas and the fault behaviour of `replace` -/

theorem resize_zero (l : List Nat) : resize l 0 = [] := by
  simp [resize]

/-- The skip loop is inert once no match is found. -/
theorem skipLoop_not_found (n : Nat) (m : Matcher) (ec : UErrorCode)
    (ep : Nat) (ends : List Nat) (cnt : Nat) :
    skipLoop n m ec false ep ends cnt = (m, ec, false, ep, ends, cnt) := by
  cases n <;> simp [skipLoop]

/-- `tryToAppendTail` is a no-op on a failed error state. -/
theorem tryTail_fail (m : Matcher) (buf : List Nat) (pos : Nat)
    (ec : UErrorCode) (hs : U_SUCCESS ec = false) :
    tryToAppendTail m buf pos ec = (0, buf, m, ec) := by
  by_cases hb : buf.isEmpty <;>
    simp [tryToAppendTail, hb, uregex_appendTail, hs]

/-- `appendTail` is a no-op on a failed, non-overflow error state. -/
theorem appendTail_fail (m : Matcher) (buf : List Nat) (pos : Nat)
    (ec : UErrorCode) (hs : U_SUCCESS ec = false) (hneq : ec ≠ .overflow) :
    appendTail m buf pos ec = (m, buf, pos, ec) := by
  have h1 : tryToAppendTail m buf pos ec = (0, buf, m, ec) :=
    tryTail_fail m buf pos ec hs
  simp [appendTail, h1, hneq]

/-- `replace` on a matcher whose calls all fault: the error suppresses the
early no-match return, every append is an entry-guarded no-op, and a fresh
empty buffer is returned with the error code still set locally. -/
theorem replace_fault_eq (m : Matcher) (repl : List Nat) (osize : Nat)
    (start : Nat) (occ : Int) (hf : m.fault = true) :
    replace m repl osize start occ =
      { out := .fresh [], returnSize := 0, allocBytes := 0, copyBytes := 0,
        stagingBytes := 0, replCalls := 0, skipFindNexts := 0, skipEnds := [],
        headCall := some (Nat.max 0 start), finalEC := .other } := by
  have hfind : uregex_find m start .zero = (false, m, .other) := by
    simp [uregex_find, U_SUCCESS, hf]
  have hhead := appendHead_fail m (resize [] osize) 0 .other start (by simp)
  have hheadm := appendHead_fail m (resize [] osize) 0 .other (Nat.max 0 start)
    (by simp)
  have htail := appendTail_fail m (resize [] osize) 0 .other
    (by simp [U_SUCCESS]) (by simp)
  simp [replace, hfind, skipLoop_not_found, U_SUCCESS, hhead, hheadm, htail,
    resize_zero]

/-- Claim C4 (amended): when the matcher reports a non-success,
non-overflow error, `replace` does not abort with that error and does not
surface it (the interface has no error out-parameter): the no-match early
return is suppressed, the append phase runs as entry-guarded no-ops, and a
newly allocated empty result of length 0 is returned while the fault code
stays local. -/
theorem claim_C4_amended (m : Matcher) (repl : List Nat) (osize : Nat)
    (start : Nat) (occ : Int) (hf : m.fault = true) :
    (replace m repl osize start occ).out = .fresh [] ∧
    (replace m repl osize start occ).returnSize = 0 ∧
    (replace m repl osize start occ).finalEC = .other := by
  rw [replace_fault_eq m repl osize start occ hf]
  exact ⟨rfl, rfl, rfl⟩

/-- Witness for the amended C4 at a concrete faulting matcher. -/
theorem claim_C4_amended_witness :
    (Matcher.fault ⟨[7, 8], [(0, 1)], true, 0, none, 0⟩ = true) ∧
    (replace ⟨[7, 8], [(0, 1)], true, 0, none, 0⟩ [9] 2 1 1).out = .fresh [] ∧
    (replace ⟨[7, 8], [(0, 1)], true, 0, none, 0⟩ [9] 2 1 1).returnSize = 0 ∧
    (replace ⟨[7, 8], [(0, 1)], true, 0, none, 0⟩ [9] 2 1 1).finalEC =
      .other :=
  ⟨rfl, claim_C4_amended ⟨[7, 8], [(0, 1)], true, 0, none, 0⟩ [9] 2 1 1 rfl⟩

/-! ### Negative occurrence selectors -/

/-- One unfolding of the replacement loop when the selector is nonzero:
exactly one `appendReplacement` and no `findNext`. -/
theorem replLoop_one (fuel : Nat) (occ : Int) (repl : List Nat) (m : Matcher)
    (buf : List Nat) (pos : Nat) (ec : UErrorCode) (calls : Nat)
    (hocc : occ ≠ 0) :
    replLoop (fuel + 1) occ repl m buf pos ec calls =
      ((appendReplacement m buf pos ec repl).1,
        (appendReplacement m buf pos ec repl).2.1,
        (appendReplacement m buf pos ec repl).2.2.1,
        (appendReplacement m buf pos ec repl).2.2.2, calls + 1) := by
  rcases h : appendReplacement m buf pos ec repl with ⟨m1, buf1, pos1, ec1⟩
  simp [replLoop, h, hocc]

/-- Claim C10: a negative occurrence selector behaves exactly like
selector 1: the skip loop runs zero times and the replacement loop stops
after its single mandatory `appendReplacement`, so the whole `replace`
result coincides with the result for selector 1. -/
theorem claim_C10_negative_eq (m : Matcher) (repl : List Nat) (osize : Nat)
    (start : Nat) (occ : Int) (hocc : occ < 0) :
    replace m repl osize start occ = replace m repl osize start 1 := by
  have h1 : (occ - 1).toNat = 0 := Int.toNat_of_nonpos (by omega)
  have h2 : ((1 : Int) - 1).toNat = 0 := by decide
  have h3 : ∀ (fuel : Nat) (repl2 : List Nat) (m2 : Matcher) (buf : List Nat)
      (pos : Nat) (ec : UErrorCode) (calls : Nat),
      replLoop fuel occ repl2 m2 buf pos ec calls =
        replLoop fuel 1 repl2 m2 buf pos ec calls := by
    intro fuel
    cases fuel with
    | zero => intro _ _ _ _ _ _; rfl
    | succ f =>
      intro repl2 m2 buf pos ec calls
      rw [replLoop_one f occ repl2 m2 buf pos ec calls (by omega),
        replLoop_one f 1 repl2 m2 buf pos ec calls (by decide)]
  simp only [replace, h1, h2, h3]

/-- Witness for C10 at selector `-1`. -/
theorem claim_C10_witness :
    ((-1 : Int) < 0) ∧
    replace ⟨[1, 2], [(0, 1)], false, 0, none, 0⟩ [9] 2 0 (-1) =
      replace ⟨[1, 2], [(0, 1)], false, 0, none, 0⟩ [9] 2 0 1 :=
  ⟨by decide,
   claim_C10_negative_eq ⟨[1, 2], [(0, 1)], false, 0, none, 0⟩ [9] 2 0 (-1)
     (by decide)⟩

/-! ### A misreporting matcher: the second overflow is swallowed -/

/-- Claim C7 (amended): when the matcher under-reports the needed length
(spec §7 "the reported required size was wrong") so that the retry after
the resize overflows a second time, `appendReplacement` does not treat it
as fatal and does not stop: it still advances the cursor by the reported
size as if the append had succeeded, leaves the buffer at the resized
length with nothing written, and returns normally with the overflow code
merely left in the error slot (which `replace` never surfaces). -/
theorem claim_C7_amended (m : Matcher) (buf : List Nat) (pos : Nat)
    (repl : List Nat) (i : Nat) (p : Nat × Nat)
    (hf : m.fault = false) (hsr : 1 ≤ m.shortReport)
    (hc : m.current = some i) (hg : m.matchSpans[i]? = some p)
    (hpos : pos ≤ buf.length) (hb : buf ≠ [])
    (hov : (buf.length : Int) - pos <
      (slice m.text m.appendFrom p.1).length + repl.length)
    (hlt : m.shortReport <
      (slice m.text m.appendFrom p.1).length + repl.length) :
    appendReplacement m buf pos .zero repl =
      (m, resize buf (pos + ((slice m.text m.appendFrom p.1).length +
          repl.length - m.shortReport)),
        pos + ((slice m.text m.appendFrom p.1).length + repl.length -
          m.shortReport),
        .overflow) := by
  have hbe : buf.isEmpty = false := by
    cases buf with
    | nil => exact absurd rfl hb
    | cons a l => rfl
  set n1 := (slice m.text m.appendFrom p.1).length + repl.length with hn1
  set sz := n1 - m.shortReport with hsz
  have h1 : tryToAppendReplacement m buf pos .zero repl =
      (sz, buf, m, .overflow) := by
    rw [tryRepl_eq_of_valid m buf pos repl i p hbe hf hc hg, if_pos (by omega)]
  have hlr : (resize buf (pos + sz)).length = pos + sz := length_resize _ _
  have hszpos : 1 ≤ sz := by omega
  have hbe2 : (resize buf (pos + sz)).isEmpty = false := by
    cases hres : resize buf (pos + sz) with
    | nil =>
      rw [hres] at hlr
      simp at hlr
      omega
    | cons a l => rfl
  have h2 : tryToAppendReplacement m (resize buf (pos + sz)) pos .zero repl =
      (sz, resize buf (pos + sz), m, .overflow) := by
    rw [tryRepl_eq_of_valid m (resize buf (pos + sz)) pos repl i p hbe2 hf hc hg,
      if_pos (by rw [hlr]; omega)]
  simp [appendReplacement, h1, h2]

/-- Witness for the amended C7: capacity 4, real need 6, reported 5; the
retry on the 5-unit buffer overflows again and is ignored. -/
theorem claim_C7_amended_witness :
    ((([0, 0, 0, 0] : List Nat).length : Int) - (0 : Nat) <
      (slice [1, 1, 1, 1] 0 0).length + ([5, 5, 5, 5, 5, 5] : List Nat).length) ∧
    ((1 : Nat) <
      (slice [1, 1, 1, 1] 0 0).length + ([5, 5, 5, 5, 5, 5] : List Nat).length) ∧
    appendReplacement ⟨[1, 1, 1, 1], [(0, 2)], false, 1, some 0, 0⟩
        [0, 0, 0, 0] 0 .zero [5, 5, 5, 5, 5, 5] =
      (⟨[1, 1, 1, 1], [(0, 2)], false, 1, some 0, 0⟩,
        resize [0, 0, 0, 0] (0 + ((slice [1, 1, 1, 1] 0 0).length +
          ([5, 5, 5, 5, 5, 5] : List Nat).length - 1)),
        0 + ((slice [1, 1, 1, 1] 0 0).length +
          ([5, 5, 5, 5, 5, 5] : List Nat).length - 1),
        .overflow) :=
  ⟨by decide, by decide,
   claim_C7_amended ⟨[1, 1, 1, 1], [(0, 2)], false, 1, some 0, 0⟩
     [0, 0, 0, 0] 0 [5, 5, 5, 5, 5, 5] 0 (0, 2) rfl (by decide) rfl rfl
     (by decide) (by decide) (by decide) (by decide)⟩

/-! ### The empty-buffer guard (zero-length original text) -/

theorem tryRepl_nil (m : Matcher) (pos : Nat) (ec : UErrorCode)
    (repl : List Nat) :
    tryToAppendReplacement m [] pos ec repl = (0, [], m, ec) := by
  simp [tryToAppendReplacement]

theorem tryTail_nil (m : Matcher) (pos : Nat) (ec : UErrorCode) :
    tryToAppendTail m [] pos ec = (0, [], m, ec) := by
  simp [tryToAppendTail]

theorem appendReplacement_nil (m : Matcher) (pos : Nat) (repl : List Nat) :
    appendReplacement m [] pos .zero repl = (m, [], pos, .zero) := by
  simp [appendReplacement, tryRepl_nil]

theorem appendTail_nil (m : Matcher) (pos : Nat) :
    appendTail m [] pos .zero = (m, [], pos, .zero) := by
  simp [appendTail, tryTail_nil]

/-- A successful `firstQualIdx` points at a span beginning at or after the
search start. -/
theorem firstQualIdx_some (l : List (Nat × Nat)) (s : Nat) :
    ∀ i, firstQualIdx l s = some i → ∃ p, l[i]? = some p ∧ s ≤ p.1 := by
  induction l with
  | nil =>
    intro i h
    simp [firstQualIdx] at h
  | cons a t ih =>
    intro i h
    by_cases hs : s ≤ a.1
    · simp [firstQualIdx, hs] at h
      exact ⟨a, by simp [← h], hs⟩
    · simp [firstQualIdx, hs] at h
      obtain ⟨j, hj, hji⟩ := h
      obtain ⟨p, hp, hsp⟩ := ih j hj
      refine ⟨p, ?_, hsp⟩
      rw [← hji]
      simpa using hp

/-- Claim C9: with a zero-length original (so the staging buffer is resized
to 0 and stays empty), the empty-buffer guards in `tryToAppendReplacement`
and `tryToAppendTail` return 0 without invoking the matcher at all (the
matcher state is returned untouched), the buffer never grows, and even when
a qualifying match exists (a pattern matching the empty string)
`replace` returns a freshly allocated result of length 0: the replacement
text is never written despite the one `appendReplacement` call made. -/
theorem claim_C9_empty_original :
    (∀ (m : Matcher) (pos : Nat) (ec : UErrorCode) (repl : List Nat),
      tryToAppendReplacement m [] pos ec repl = (0, [], m, ec)) ∧
    (∀ (m : Matcher) (pos : Nat) (ec : UErrorCode),
      tryToAppendTail m [] pos ec = (0, [], m, ec)) ∧
    (∀ (m : Matcher) (repl : List Nat) (start i : Nat),
      m.WF → m.fault = false → m.text = [] →
      firstQualIdx m.matchSpans start = some i →
      (replace m repl 0 start 1).out = .fresh [] ∧
      (replace m repl 0 start 1).returnSize = 0 ∧
      (replace m repl 0 start 1).replCalls = 1) := by
  refine ⟨fun m pos ec repl => tryRepl_nil m pos ec repl,
    fun m pos ec => tryTail_nil m pos ec, ?_⟩
  intro m repl start i hwf hf htext hq
  obtain ⟨p, hp, hsp⟩ := firstQualIdx_some m.matchSpans start i hq
  have hmem : p ∈ m.matchSpans := by
    have hlen : i < m.matchSpans.length := by
      by_contra hge
      rw [List.getElem?_eq_none (by omega)] at hp
      exact Option.noConfusion hp
    have : m.matchSpans[i] = p := by
      have := List.getElem?_eq_getElem hlen
      rw [this] at hp
      exact Option.some.inj hp
    rw [← this]
    exact List.getElem_mem hlen
  have hb := hwf.2 p hmem
  have hstart : start = 0 := by
    have h2 := hb.2
    rw [htext] at h2
    simp at h2
    omega
  subst hstart
  have hfind : uregex_find m 0 .zero =
      (true, { m with current := some i, appendFrom := 0 }, .zero) := by
    simp [uregex_find, U_SUCCESS, hf, hq]
  have hloop := replLoop_one m.matchSpans.length 1 repl
    { m with current := some i, appendFrom := 0 } [] 0 .zero 0 (by decide)
  refine ⟨?_, ?_, ?_⟩ <;>
    simp [replace, hfind, skipLoop, U_SUCCESS, resize_zero, appendHead,
      hloop, appendReplacement_nil, appendTail_nil]

/-- Witness for C9: the empty text with the empty-string match `(0, 0)`. -/
theorem claim_C9_witness :
    tryToAppendReplacement ⟨[], [(0, 0)], false, 0, none, 0⟩ [] 3 .zero [7] =
      (0, [], ⟨[], [(0, 0)], false, 0, none, 0⟩, .zero) ∧
    tryToAppendTail ⟨[], [(0, 0)], false, 0, none, 0⟩ [] 3 .zero =
      (0, [], ⟨[], [(0, 0)], false, 0, none, 0⟩, .zero) ∧
    (Matcher.WF ⟨[], [(0, 0)], false, 0, none, 0⟩ ∧
      firstQualIdx [(0, 0)] 0 = some 0) ∧
    (replace ⟨[], [(0, 0)], false, 0, none, 0⟩ [7] 0 0 1).out = .fresh [] ∧
    (replace ⟨[], [(0, 0)], false, 0, none, 0⟩ [7] 0 0 1).returnSize = 0 ∧
    (replace ⟨[], [(0, 0)], false, 0, none, 0⟩ [7] 0 0 1).replCalls = 1 := by
  have hwf : Matcher.WF ⟨[], [(0, 0)], false, 0, none, 0⟩ := by
    constructor
    · simp
    · intro q hq
      simp at hq
      simp [hq]
  obtain ⟨h1, h2, h3⟩ := claim_C9_empty_original.2.2
    ⟨[], [(0, 0)], false, 0, none, 0⟩ [7] 0 0 hwf rfl rfl rfl
  exact ⟨claim_C9_empty_original.1 _ 3 .zero [7],
    claim_C9_empty_original.2.1 _ 3 .zero, ⟨hwf, rfl⟩, h1, h2, h3⟩

/-! ### Counting the qualifying matches -/

theorem getElem?_some_lt {α : Type} (l : List α) (i : Nat) (a : α)
    (h : l[i]? = some a) : i < l.length := by
  by_contra hge
  rw [List.getElem?_eq_none (by omega)] at h
  exact Option.noConfusion h

/-- When no span qualifies, the qualifying filter is empty. -/
theorem firstQualIdx_none_filter (l : List (Nat × Nat)) (s : Nat) :
    firstQualIdx l s = none → l.filter (fun p => s ≤ p.1) = [] := by
  induction l with
  | nil => intro _; rfl
  | cons a t ih =>
    intro h
    by_cases hs : s ≤ a.1
    · simp [firstQualIdx, hs] at h
    · simp [firstQualIdx, hs] at h
      simpa [List.filter_cons, hs] using ih h

/-- For ordered, well-formed spans the qualifying filter is the suffix from
the first qualifying index on. -/
theorem filter_eq_drop_of_sorted (l : List (Nat × Nat)) (s : Nat) :
    ∀ i, l.Pairwise (fun p q => p.2 ≤ q.1) → (∀ p ∈ l, p.1 ≤ p.2) →
    firstQualIdx l s = some i → l.filter (fun p => s ≤ p.1) = l.drop i := by
  induction l with
  | nil =>
    intro i _ _ h
    simp [firstQualIdx] at h
  | cons a t ih =>
    intro i hpw hse h
    by_cases hs : s ≤ a.1
    · simp [firstQualIdx, hs] at h
      have hall : ∀ q ∈ t, s ≤ q.1 := by
        intro q hq
        have h1 : a.2 ≤ q.1 := (List.pairwise_cons.mp hpw).1 q hq
        have h2 : a.1 ≤ a.2 := hse a (by simp)
        omega
      rw [← h]
      rw [List.drop_zero, List.filter_cons_of_pos (by simp [hs])]
      rw [List.filter_eq_self.mpr (fun q hq => by simpa using hall q hq)]
    · simp [firstQualIdx, hs] at h
      obtain ⟨j, hj, hji⟩ := h
      rw [← hji]
      rw [List.drop_succ_cons, List.filter_cons_of_neg (by simp [hs])]
      exact ih j (List.pairwise_cons.mp hpw).2
        (fun p hp => hse p (List.mem_cons_of_mem a hp)) hj

theorem countFrom_fqi_none (m : Matcher) (start : Nat)
    (h : firstQualIdx m.matchSpans start = none) : countFrom m start = 0 := by
  simp [countFrom, firstQualIdx_none_filter _ _ h]

theorem countFrom_fqi_some (m : Matcher) (start i : Nat) (hwf : m.WF)
    (h : firstQualIdx m.matchSpans start = some i) :
    countFrom m start = m.matchSpans.length - i := by
  rw [countFrom, filter_eq_drop_of_sorted m.matchSpans start i hwf.1
    (fun p hp => (hwf.2 p hp).1) h, List.length_drop]

/-! ### The skip loop -/

/-- When the remaining matches run out before the fuel does, the skip loop
steps over every remaining match and ends in the not-found state, having
recorded every end offset from the current index on. -/
theorem skipLoop_exhaust :
    ∀ (s : Nat) (m : Matcher) (i : Nat) (ep : Nat) (ends : List Nat)
      (cnt : Nat),
      m.fault = false → m.current = some i → i < m.matchSpans.length →
      m.matchSpans.length ≤ i + s →
      skipLoop s m .zero true ep ends cnt =
        ({ m with
            current := none
            appendFrom := endAt m (m.matchSpans.length - 1) },
          .zero, false, endAt m (m.matchSpans.length - 1),
          ends ++ (m.matchSpans.drop i).map Prod.snd,
          cnt + (m.matchSpans.length - i)) := by
  intro s
  induction s with
  | zero =>
    intro m i ep ends cnt _ _ hlt hge
    omega
  | succ s' ih =>
    intro m i ep ends cnt hf hc hlt hge
    obtain ⟨p, hp⟩ : ∃ p, m.matchSpans[i]? = some p :=
      ⟨_, List.getElem?_eq_getElem hlt⟩
    have hend : uregex_end m .zero = (p.2, .zero) := by
      simp [uregex_end, U_SUCCESS, hf, hc, hp]
    have hdropi : m.matchSpans.drop i =
        m.matchSpans[i] :: m.matchSpans.drop (i + 1) :=
      List.drop_eq_getElem_cons hlt
    have hpi : m.matchSpans[i] = p := by
      have h2 := List.getElem?_eq_getElem hlt
      rw [h2] at hp
      exact Option.some.inj hp
    by_cases hi1 : i + 1 < m.matchSpans.length
    · obtain ⟨q, hq⟩ : ∃ q, m.matchSpans[i + 1]? = some q :=
        ⟨_, List.getElem?_eq_getElem hi1⟩
      have hnext : uregex_findNext m .zero =
          (true, { m with current := some (i + 1), appendFrom := p.2 },
            .zero) := by
        simp [uregex_findNext, U_SUCCESS, hf, hc, hp, hq]
      have hstep : skipLoop (s' + 1) m .zero true ep ends cnt =
          skipLoop s' { m with current := some (i + 1), appendFrom := p.2 }
            .zero true p.2 (ends ++ [p.2]) (cnt + 1) := by
        simp [skipLoop, hend, hnext]
      rw [hstep, ih { m with current := some (i + 1), appendFrom := p.2 }
        (i + 1) p.2 (ends ++ [p.2]) (cnt + 1) (by simp [hf]) rfl
        (by simpa using hi1) (by simpa using (by omega :
          m.matchSpans.length ≤ i + 1 + s'))]
      rw [hdropi, hpi]
      simp [endAt]
      omega
    · have hq : m.matchSpans[i + 1]? = none :=
        List.getElem?_eq_none (by omega)
      have hnext : uregex_findNext m .zero =
          (false, { m with current := none, appendFrom := p.2 }, .zero) := by
        simp [uregex_findNext, U_SUCCESS, hf, hc, hp, hq]
      have hstep : skipLoop (s' + 1) m .zero true ep ends cnt =
          skipLoop s' { m with current := none, appendFrom := p.2 } .zero
            false p.2 (ends ++ [p.2]) (cnt + 1) := by
        simp [skipLoop, hend, hnext]
      rw [hstep, skipLoop_not_found]
      have hlen : m.matchSpans.length = i + 1 := by omega
      have hdrop2 : m.matchSpans.drop (i + 1) = [] :=
        List.drop_eq_nil_of_le (by omega)
      rw [hdropi, hpi, hdrop2]
      simp [endAt, hlen, hp]

/-- Claim C1: when no qualifying match exists — either the pattern has no
match at or after `start`, or the selector `occ ≥ 1` asks for an occurrence
beyond the number of matches there — and no matcher error occurred,
`replace` returns the original pointer unchanged with `returnSize` equal to
`originalSize` and performs no allocation (the staging buffer is never even
resized: the early return precedes it). -/
theorem claim_C1_no_qualifying_match (m : Matcher) (repl : List Nat)
    (osize start : Nat) (occ : Int) (hwf : m.WF) (hf : m.fault = false)
    (hq : noQual m start occ) :
    (replace m repl osize start occ).out = .original ∧
    (replace m repl osize start occ).returnSize = osize ∧
    (replace m repl osize start occ).allocBytes = 0 := by
  cases hfq : firstQualIdx m.matchSpans start with
  | none =>
    have hfind : uregex_find m start .zero =
        (false, { m with current := none, appendFrom := start }, .zero) := by
      simp [uregex_find, U_SUCCESS, hf, hfq]
    refine ⟨?_, ?_, ?_⟩ <;>
      simp [replace, hfind, skipLoop_not_found, U_SUCCESS]
  | some i =>
    have hcnt := countFrom_fqi_some m start i hwf hfq
    obtain ⟨p, hp, hsp⟩ := firstQualIdx_some m.matchSpans start i hfq
    have hilen : i < m.matchSpans.length := getElem?_some_lt _ _ _ hp
    have hocc1 : 1 ≤ occ := by
      by_contra hlt
      simp only [noQual] at hq
      rw [if_neg hlt] at hq
      omega
    have hqlt : (countFrom m start : Int) < occ := by
      simp only [noQual] at hq
      rw [if_pos hocc1] at hq
      exact hq
    have hfuel : m.matchSpans.length ≤ i + (occ - 1).toNat := by omega
    have hfind : uregex_find m start .zero =
        (true, { m with current := some i, appendFrom := start }, .zero) := by
      simp [uregex_find, U_SUCCESS, hf, hfq]
    have hex := skipLoop_exhaust ((occ - 1).toNat)
      { m with current := some i, appendFrom := start } i 0 [] 0
      (by simp [hf]) rfl (by simpa using hilen) (by simpa using hfuel)
    have hto : (occ - 1).toNat = occ.toNat - 1 := by omega
    rw [hto] at hex
    refine ⟨?_, ?_, ?_⟩ <;> simp [replace, hfind, hex, U_SUCCESS]

/-- Witness for C1: two matches would be needed, only one exists. -/
theorem claim_C1_witness :
    (Matcher.WF ⟨[9, 9], [(0, 1)], false, 0, none, 0⟩ ∧
      Matcher.fault ⟨[9, 9], [(0, 1)], false, 0, none, 0⟩ = false ∧
      noQual ⟨[9, 9], [(0, 1)], false, 0, none, 0⟩ 0 2) ∧
    (replace ⟨[9, 9], [(0, 1)], false, 0, none, 0⟩ [7] 2 0 2).out =
      .original ∧
    (replace ⟨[9, 9], [(0, 1)], false, 0, none, 0⟩ [7] 2 0 2).returnSize = 2 ∧
    (replace ⟨[9, 9], [(0, 1)], false, 0, none, 0⟩ [7] 2 0 2).allocBytes =
      0 := by
  have hwf : Matcher.WF ⟨[9, 9], [(0, 1)], false, 0, none, 0⟩ := by
    constructor
    · simp
    · intro q hq
      simp at hq
      simp [hq]
  have h := claim_C1_no_qualifying_match ⟨[9, 9], [(0, 1)], false, 0, none, 0⟩
    [7] 2 0 2 hwf rfl (by unfold noQual countFrom; decide)
  exact ⟨⟨hwf, rfl, by unfold noQual countFrom; decide⟩, h.1, h.2.1, h.2.2⟩

/-! ### Counting the replacement loop -/

/-- Under an honest matcher with a clean error state and a valid current
match, `appendReplacement` only moves the matcher's append position, keeps
a clean error, and keeps the cursor within the buffer. -/
theorem appendReplacement_inv (m : Matcher) (buf : List Nat) (pos : Nat)
    (repl : List Nat) (i : Nat) (p : Nat × Nat)
    (hf : m.fault = false) (hsr : m.shortReport = 0)
    (hc : m.current = some i) (hg : m.matchSpans[i]? = some p)
    (hpos : pos ≤ buf.length) :
    ∃ q B pos1, appendReplacement m buf pos .zero repl =
      ({ m with appendFrom := q }, B, pos1, .zero) ∧ pos1 ≤ B.length := by
  by_cases hb : buf = []
  · subst hb
    have hpos0 : pos = 0 := by simpa using hpos
    subst hpos0
    exact ⟨m.appendFrom, [], 0, appendReplacement_nil m 0 repl, Nat.le_refl 0⟩
  · obtain ⟨B, h1, h2, h3⟩ :=
      appendReplacement_ok m buf pos repl i p hf hsr hc hg hpos hb
    refine ⟨p.2, B, _, h1, ?_⟩
    rw [h3]
    omega

/-- The replace-all loop performs one `appendReplacement` per remaining
match: starting at current index `i` with enough fuel, the call counter
increases by exactly `matchSpans.length - i`. -/
theorem replLoop_count :
    ∀ (fuel : Nat) (m : Matcher) (i : Nat) (buf : List Nat) (pos : Nat)
      (cnt : Nat) (repl : List Nat),
      m.fault = false → m.shortReport = 0 → m.current = some i →
      i < m.matchSpans.length → pos ≤ buf.length →
      m.matchSpans.length - i ≤ fuel →
      (replLoop fuel 0 repl m buf pos .zero cnt).2.2.2.2 =
        cnt + (m.matchSpans.length - i) := by
  intro fuel
  induction fuel with
  | zero =>
    intro m i buf pos cnt repl _ _ _ hi _ hfuel
    omega
  | succ f ih =>
    intro m i buf pos cnt repl hf hsr hc hi hpos hfuel
    obtain ⟨p, hp⟩ : ∃ p, m.matchSpans[i]? = some p :=
      ⟨_, List.getElem?_eq_getElem hi⟩
    obtain ⟨q, B, pos1, happ, hble⟩ :=
      appendReplacement_inv m buf pos repl i p hf hsr hc hp hpos
    by_cases hi1 : i + 1 < m.matchSpans.length
    · obtain ⟨r, hr⟩ : ∃ r, m.matchSpans[i + 1]? = some r :=
        ⟨_, List.getElem?_eq_getElem hi1⟩
      have hnext : uregex_findNext { m with appendFrom := q } .zero =
          (true, { m with current := some (i + 1), appendFrom := p.2 },
            .zero) := by
        simp [uregex_findNext, U_SUCCESS, hf, hc, hp, hr]
      have hstep : replLoop (f + 1) 0 repl m buf pos .zero cnt =
          replLoop f 0 repl
            { m with current := some (i + 1), appendFrom := p.2 } B pos1
            .zero (cnt + 1) := by
        simp [replLoop, happ, hnext]
      rw [hstep, ih { m with current := some (i + 1), appendFrom := p.2 }
        (i + 1) B pos1 (cnt + 1) repl (by simp [hf]) (by simp [hsr]) rfl
        (by simpa using hi1) hble
        (by simpa using (by omega : m.matchSpans.length - (i + 1) ≤ f))]
      simp
      omega
    · have hr : m.matchSpans[i + 1]? = none :=
        List.getElem?_eq_none (by omega)
      have hnext : uregex_findNext { m with appendFrom := q } .zero =
          (false, { m with current := none, appendFrom := p.2 }, .zero) := by
        simp [uregex_findNext, U_SUCCESS, hf, hc, hp, hr]
      have hstep : (replLoop (f + 1) 0 repl m buf pos .zero cnt).2.2.2.2 =
          cnt + 1 := by
        simp [replLoop, happ, hnext]
      rw [hstep]
      omega

/-- Claim C2: with occurrence selector 0 (replace every match), the number
of `appendReplacement` calls performed by `replace` equals the number of
matches at or after `startOffset` — zero calls when no match exists (the
loop is never entered), and otherwise one call per match visited while
`findNext` keeps reporting another match. -/
theorem claim_C2_replace_all_count (m : Matcher) (repl : List Nat)
    (osize start : Nat) (hwf : m.WF) (hf : m.fault = false)
    (hsr : m.shortReport = 0) :
    (replace m repl osize start 0).replCalls = countFrom m start := by
  have ht : ((0 : Int) - 1).toNat = 0 := rfl
  cases hfq : firstQualIdx m.matchSpans start with
  | none =>
    have hfind : uregex_find m start .zero =
        (false, { m with current := none, appendFrom := start }, .zero) := by
      simp [uregex_find, U_SUCCESS, hf, hfq]
    rw [countFrom_fqi_none m start hfq]
    simp [replace, hfind, skipLoop_not_found, U_SUCCESS]
  | some i =>
    have hcnt := countFrom_fqi_some m start i hwf hfq
    obtain ⟨p, hp, hsp⟩ := firstQualIdx_some m.matchSpans start i hfq
    have hilen : i < m.matchSpans.length := getElem?_some_lt _ _ _ hp
    have hfind : uregex_find m start .zero =
        (true, { m with current := some i, appendFrom := start }, .zero) := by
      simp [uregex_find, U_SUCCESS, hf, hfq]
    rcases hh : appendHead { m with current := some i, appendFrom := start } (resize [] osize) 0 .zero (Nat.max 0 start) with ⟨mh, bufh, posh, ech⟩
    have hhz := appendHead_zero_ec { m with current := some i, appendFrom := start } (resize [] osize) 0 (Nat.max 0 start) (by simp [hf])
    rw [hh] at hhz
    have hmh : mh = { m with current := some i, appendFrom := start } := by
      have h4 := congrArg Prod.fst hhz
      simpa using h4
    have hech : ech = .zero := by
      have h4 := congrArg (fun t => t.2.2.2) hhz
      simpa using h4
    have hple : posh ≤ bufh.length := by
      have h3 := appendHead_pos_le { m with current := some i, appendFrom := start } (resize [] osize) 0 .zero (Nat.max 0 start) (by simp)
      rw [hh] at h3
      exact h3
    subst hmh
    subst hech
    have hloop := replLoop_count (m.matchSpans.length + 1) { m with current := some i, appendFrom := start } i bufh posh 0 repl (by simp [hf]) (by simp [hsr]) rfl (by simpa using hilen) hple (by simp; omega)
    rw [hcnt]
    have hmax : Nat.max 0 start = start := by simp
    rw [hmax] at hh
    simp [replace, hfind, ht, skipLoop, U_SUCCESS, hh]
    simp at hloop
    rw [hloop]

/-- Witness for C2: two matches of a four-unit text, both replaced. -/
theorem claim_C2_witness :
    (Matcher.WF ⟨[1, 2, 3, 4], [(0, 1), (2, 3)], false, 0, none, 0⟩ ∧
      Matcher.fault ⟨[1, 2, 3, 4], [(0, 1), (2, 3)], false, 0, none, 0⟩ =
        false) ∧
    (replace ⟨[1, 2, 3, 4], [(0, 1), (2, 3)], false, 0, none, 0⟩ [7] 4 0
        0).replCalls =
      countFrom ⟨[1, 2, 3, 4], [(0, 1), (2, 3)], false, 0, none, 0⟩ 0 := by
  have hwf : Matcher.WF ⟨[1, 2, 3, 4], [(0, 1), (2, 3)], false, 0, none, 0⟩ := by
    constructor
    · simp
    · intro q hq
      simp at hq
      rcases hq with hq | hq <;> simp [hq]
  exact ⟨⟨hwf, rfl⟩, claim_C2_replace_all_count
    ⟨[1, 2, 3, 4], [(0, 1), (2, 3)], false, 0, none, 0⟩ [7] 4 0 hwf rfl rfl⟩

/-! ### Helpers for the k-th occurrence claim -/

theorem resize_nil (n : Nat) : resize [] n = List.replicate n 0 := by
  simp [resize]

theorem wf_end_le_start (m : Matcher) (hwf : m.WF) (i j : Nat) (hij : i < j)
    (p q : Nat × Nat) (hp : m.matchSpans[i]? = some p)
    (hq : m.matchSpans[j]? = some q) : p.2 ≤ q.1 := by
  have hi := getElem?_some_lt _ _ _ hp
  have hj := getElem?_some_lt _ _ _ hq
  have hpi : m.matchSpans[i] = p := by
    have h2 := List.getElem?_eq_getElem hi
    rw [h2] at hp
    exact Option.some.inj hp
  have hqj : m.matchSpans[j] = q := by
    have h2 := List.getElem?_eq_getElem hj
    rw [h2] at hq
    exact Option.some.inj hq
  have h3 := List.pairwise_iff_getElem.mp hwf.1 i j hi hj hij
  rw [hpi, hqj] at h3
  exact h3

theorem mem_of_getElem_some (m : Matcher) (i : Nat) (p : Nat × Nat)
    (hp : m.matchSpans[i]? = some p) : p ∈ m.matchSpans := by
  have hi := getElem?_some_lt _ _ _ hp
  have hpi : m.matchSpans[i] = p := by
    have h2 := List.getElem?_eq_getElem hi
    rw [h2] at hp
    exact Option.some.inj hp
  rw [← hpi]
  exact List.getElem_mem hi

/-- Exact behaviour of `appendHead` with cursor 0 on a large enough buffer:
the first `size` text units are written over the head of the buffer. -/
theorem appendHead_spec (m : Matcher) (buf : List Nat) (size : Nat)
    (hf : m.fault = false) (hb : size ≤ buf.length)
    (ht : size ≤ m.text.length) :
    appendHead m buf 0 .zero size =
      (m, m.text.take size ++ buf.drop size, size, .zero) := by
  by_cases h0 : size = 0
  · subst h0
    rw [appendHead_zero_ec m buf 0 0 hf]
    simp
  · rw [appendHead_zero_ec m buf 0 size hf, if_neg h0, if_neg h0,
      if_neg (by omega)]
    have hw : writeAt buf 0 (m.text.take size) =
        m.text.take size ++ buf.drop size := by
      simp [writeAt, List.length_take, Nat.min_eq_left ht]
    rw [hw]

theorem take_append_of_length (xs ys : List Nat) (n : Nat)
    (h : xs.length = n) : (xs ++ ys).take n = xs := by
  subst h
  simp

theorem take_append_slice (l : List Nat) (a b : Nat) (hab : a ≤ b)
    (hb : b ≤ l.length) : l.take a ++ slice l a b = l.take b := by
  rw [slice, ← List.take_add]
  congr 1
  omega

/-- The skip loop stepping `s + 1` times entirely inside the match list:
it lands on index `i + s + 1` with the end of the span at `i + s` recorded
as the end of the previous match, having collected the end offsets of the
spans `i` through `i + s`. -/
theorem skipLoop_advance :
    ∀ (s : Nat) (m : Matcher) (i : Nat) (ep : Nat) (ends : List Nat)
      (cnt : Nat) (p : Nat × Nat),
      m.fault = false → m.current = some i →
      m.matchSpans[i + s]? = some p → i + s + 1 < m.matchSpans.length →
      skipLoop (s + 1) m .zero true ep ends cnt =
        ({ m with current := some (i + s + 1), appendFrom := p.2 },
          .zero, true, p.2,
          ends ++ ((m.matchSpans.drop i).take (s + 1)).map Prod.snd,
          cnt + (s + 1)) := by
  intro s
  induction s with
  | zero =>
    intro m i ep ends cnt p hf hc hp hlt
    have hi : i < m.matchSpans.length := by omega
    have hp0 : m.matchSpans[i]? = some p := by simpa using hp
    obtain ⟨q, hq⟩ : ∃ q, m.matchSpans[i + 1]? = some q :=
      ⟨_, List.getElem?_eq_getElem (by omega)⟩
    have hend : uregex_end m .zero = (p.2, .zero) := by
      simp [uregex_end, U_SUCCESS, hf, hc, hp0]
    have hnext : uregex_findNext m .zero =
        (true, { m with current := some (i + 1), appendFrom := p.2 },
          .zero) := by
      simp [uregex_findNext, U_SUCCESS, hf, hc, hp0, hq]
    have hdropi : m.matchSpans.drop i =
        m.matchSpans[i] :: m.matchSpans.drop (i + 1) :=
      List.drop_eq_getElem_cons hi
    have hpi : m.matchSpans[i] = p := by
      have h2 := List.getElem?_eq_getElem hi
      rw [h2] at hp0
      exact Option.some.inj hp0
    rw [show (0 : Nat) + 1 = 1 from rfl]
    simp [skipLoop, hend, hnext, hdropi, hpi]
  | succ s' ih =>
    intro m i ep ends cnt p hf hc hp hlt
    have hi : i < m.matchSpans.length := by omega
    obtain ⟨p0, hp0⟩ : ∃ p0, m.matchSpans[i]? = some p0 :=
      ⟨_, List.getElem?_eq_getElem hi⟩
    obtain ⟨q, hq⟩ : ∃ q, m.matchSpans[i + 1]? = some q :=
      ⟨_, List.getElem?_eq_getElem (by omega)⟩
    have hend : uregex_end m .zero = (p0.2, .zero) := by
      simp [uregex_end, U_SUCCESS, hf, hc, hp0]
    have hnext : uregex_findNext m .zero =
        (true, { m with current := some (i + 1), appendFrom := p0.2 },
          .zero) := by
      simp [uregex_findNext, U_SUCCESS, hf, hc, hp0, hq]
    have hstep : skipLoop (s' + 1 + 1) m .zero true ep ends cnt =
        skipLoop (s' + 1) { m with current := some (i + 1), appendFrom := p0.2 } .zero true p0.2 (ends ++ [p0.2]) (cnt + 1) := by
      simp [skipLoop, hend, hnext]
    rw [hstep, ih { m with current := some (i + 1), appendFrom := p0.2 }
      (i + 1) p0.2 (ends ++ [p0.2]) (cnt + 1) p (by simp [hf]) rfl
      (by simpa using (show m.matchSpans[i + 1 + s']? = some p by
        rw [show i + 1 + s' = i + (s' + 1) by omega]; exact hp))
      (by simpa using (show i + 1 + s' + 1 < m.matchSpans.length by omega))]
    have hdropi : m.matchSpans.drop i =
        m.matchSpans[i] :: m.matchSpans.drop (i + 1) :=
      List.drop_eq_getElem_cons hi
    have hpi : m.matchSpans[i] = p0 := by
      have h2 := List.getElem?_eq_getElem hi
      rw [h2] at hp0
      exact Option.some.inj hp0
    simp [hdropi, hpi]
    constructor
    · omega
    · omega

/-- The whole append phase of `replace` when the matcher stands on the
match `(s, e)` (current index `iK`) with append position `X ≤ s` and the
staging buffer freshly resized to the text length: the head writes
`text[0, X)`, the single `appendReplacement` of a nonzero selector writes
`text[X, s)` and the replacement, the tail writes `text[e, ..)`, and the
final truncation yields exactly `text[0, s) ++ repl ++ text[e, ..)`. -/
theorem append_phase (mA : Matcher) (repl : List Nat) (iK s e X : Nat)
    (occ : Int)
    (hf : mA.fault = false) (hsr : mA.shortReport = 0)
    (hc : mA.current = some iK) (hg : mA.matchSpans[iK]? = some (s, e))
    (haf : mA.appendFrom = X)
    (hXs : X ≤ s) (hse : s ≤ e) (hel : e ≤ mA.text.length)
    (ht0 : 0 < mA.text.length) (hocc : occ ≠ 0) :
    ∃ B B2,
      appendHead mA (resize [] mA.text.length) 0 .zero X =
        (mA, mA.text.take X ++ (resize [] mA.text.length).drop X, X,
          .zero) ∧
      replLoop (mA.matchSpans.length + 1) occ repl mA
        (mA.text.take X ++ (resize [] mA.text.length).drop X) X .zero 0 =
        ({ mA with appendFrom := e }, B, s + repl.length, .zero, 1) ∧
      appendTail { mA with appendFrom := e } B (s + repl.length) .zero =
        ({ mA with appendFrom := mA.text.length }, B2,
          s + repl.length + (mA.text.length - e), .zero) ∧
      resize B2 (s + repl.length + (mA.text.length - e)) =
        mA.text.take s ++ repl ++ mA.text.drop e := by
  have hbuf1len : (resize [] mA.text.length).length = mA.text.length :=
    length_resize _ _
  have hhead := appendHead_spec mA (resize [] mA.text.length) X hf
    (by rw [hbuf1len]; omega) (by omega)
  have htakeXlen : (mA.text.take X).length = X := by
    rw [List.length_take]
    exact Nat.min_eq_left (by omega)
  have hbufHlen :
      (mA.text.take X ++ (resize [] mA.text.length).drop X).length =
        mA.text.length := by
    rw [List.length_append, htakeXlen, List.length_drop, hbuf1len]
    omega
  have hXbufH :
      X ≤ (mA.text.take X ++ (resize [] mA.text.length).drop X).length := by
    rw [hbufHlen]
    omega
  have hbufHne : mA.text.take X ++ (resize [] mA.text.length).drop X ≠ [] :=
    List.ne_nil_of_length_pos (by rw [hbufHlen]; omega)
  obtain ⟨B, h1, h2, h3⟩ := appendReplacement_ok mA
    (mA.text.take X ++ (resize [] mA.text.length).drop X) X repl iK (s, e)
    hf hsr hc hg hXbufH hbufHne
  rw [haf] at h1 h2 h3
  have hslicelen : (slice mA.text X s).length = s - X := by
    rw [slice, List.length_take, List.length_drop]
    exact Nat.min_eq_left (by omega)
  have hloop : replLoop (mA.matchSpans.length + 1) occ repl mA
      (mA.text.take X ++ (resize [] mA.text.length).drop X) X .zero 0 =
      ({ mA with appendFrom := e }, B,
        X + ((slice mA.text X s).length + repl.length), .zero, 1) := by
    rw [replLoop_one mA.matchSpans.length occ repl mA
      (mA.text.take X ++ (resize [] mA.text.length).drop X) X .zero 0 hocc,
      h1]
  have hposA : X + ((slice mA.text X s).length + repl.length) ≤ B.length := by
    rw [h3]
    exact le_max_right _ _
  have hBne : B ≠ [] := by
    apply List.ne_nil_of_length_pos
    rw [h3]
    exact lt_of_lt_of_le (by omega) (le_max_left _ _)
  obtain ⟨B2, t1, t2, t3⟩ := appendTail_ok { mA with appendFrom := e } B
    (X + ((slice mA.text X s).length + repl.length)) (by simp [hf])
    (by simp [hsr]) hposA hBne
  have hXn : X + ((slice mA.text X s).length + repl.length) =
      s + repl.length := by
    rw [hslicelen]
    omega
  rw [hXn] at hloop t1 t2 t3
  refine ⟨B, B2, hhead, hloop, ?_, ?_⟩
  · simpa using t1
  · have hcontent : B2.take (s + repl.length + (mA.text.length - e)) =
        mA.text.take s ++ repl ++ mA.text.drop e := by
      have t2n : B2.take (s + repl.length + (mA.text.length - e)) =
          B.take (s + repl.length) ++ mA.text.drop e := by
        simpa using t2
      rw [t2n, ← hXn, h2, take_append_of_length _ _ X htakeXlen,
        show mA.text.take X ++ (slice mA.text X s ++ repl) =
          (mA.text.take X ++ slice mA.text X s) ++ repl from
          (List.append_assoc _ _ _).symm,
        take_append_slice mA.text X s hXs (by omega), List.append_assoc]
    rw [resize_eq_take _ _ ?hle]
    · exact hcontent
    case hle =>
      have t3n : B2.length = max B.length
          (s + repl.length + (mA.text.length - e)) := by
        simpa [hXn] using t3
      rw [t3n]
      exact le_max_right _ _

/-- Claim C3: for a selector `k ≥ 1` with at least `k` qualifying matches
(the `k`-th one, 1-indexed from the first match at or after `start`, being
the span `(s, e)`), `replace` performs exactly one `appendReplacement`, the
skip loop makes exactly `k - 1` `findNext` calls recording the end offset
of each skipped match, `appendHead` is called with
`max(lastSkippedEnd, start)` units, and the result is the original text
with only the `k`-th match substituted — every other match appears as
original text. -/
theorem claim_C3_kth_occurrence (m : Matcher) (repl : List Nat)
    (start k i0 s e : Nat)
    (hwf : m.WF) (hf : m.fault = false) (hsr : m.shortReport = 0)
    (hk : 1 ≤ k)
    (hfq : firstQualIdx m.matchSpans start = some i0)
    (hkth : m.matchSpans[i0 + (k - 1)]? = some (s, e))
    (ht0 : 0 < m.text.length) :
    replace m repl m.text.length start (k : Int) =
      { out := .fresh (m.text.take s ++ repl ++ m.text.drop e),
        returnSize := s + repl.length + (m.text.length - e),
        allocBytes := (s + repl.length + (m.text.length - e)) *
          sizeof_UCharPtr,
        copyBytes := (s + repl.length + (m.text.length - e)) *
          sizeof_UCharPtr,
        stagingBytes := (s + repl.length + (m.text.length - e)) *
          sizeof_UChar,
        replCalls := 1, skipFindNexts := k - 1,
        skipEnds := ((m.matchSpans.drop i0).take (k - 1)).map Prod.snd,
        headCall := some (Nat.max (lastSkippedEnd m i0 k) start),
        finalEC := .zero } := by
  obtain ⟨p0, hp0, hsp0⟩ := firstQualIdx_some m.matchSpans start i0 hfq
  have hmemK := mem_of_getElem_some m _ _ hkth
  have hbounds := hwf.2 _ hmemK
  have hfind : uregex_find m start .zero =
      (true, { m with current := some i0, appendFrom := start }, .zero) := by
    simp [uregex_find, U_SUCCESS, hf, hfq]
  have hslen : (m.text.take s).length = s := by
    rw [List.length_take]
    exact Nat.min_eq_left (by omega)
  rcases k with _ | k'
  · omega
  rcases k' with _ | k''
  · -- k = 1
    have hkth1 : m.matchSpans[i0]? = some (s, e) := by simpa using hkth
    have hp0e : p0 = (s, e) := by
      rw [hp0] at hkth1
      exact Option.some.inj hkth1
    have hstart_s : start ≤ s := by
      have h5 := hsp0
      rw [hp0e] at h5
      exact h5
    obtain ⟨B, B2, hh, hl, ht, hr⟩ := append_phase
      { m with current := some i0, appendFrom := start } repl i0 s e start
      ((1 : Nat) : Int) (by simp [hf]) (by simp [hsr]) rfl
      (by simpa using hkth1) rfl hstart_s hbounds.1
      (by simpa using hbounds.2) (by simpa using ht0) (by omega)
    have hskip : skipLoop (((1 : Nat) : Int) - 1).toNat
        { m with current := some i0, appendFrom := start } .zero true 0 [] 0 =
        ({ m with current := some i0, appendFrom := start }, .zero, true, 0,
          [], 0) := rfl
    have hmax : Nat.max 0 start = start := by simp
    simp at hh hl ht hr
    simp [replace, hfind, hskip, skipLoop, U_SUCCESS, hmax, hh, hl, ht, hr,
      length_resize, lastSkippedEnd, hslen]
    exact ⟨by omega, Or.inl (by omega), Or.inl (by omega)⟩
  · -- k = k'' + 2
    have hiK := getElem?_some_lt _ _ _ hkth
    have hkth2 : m.matchSpans[i0 + (k'' + 1)]? = some (s, e) := by
      simpa using hkth
    obtain ⟨pP, hpP⟩ : ∃ pP, m.matchSpans[i0 + k'']? = some pP :=
      ⟨_, List.getElem?_eq_getElem (by simp at hiK; omega)⟩
    have hpPb := hwf.2 _ (mem_of_getElem_some m _ _ hpP)
    have hp0b := hwf.2 _ (mem_of_getElem_some m _ _ hp0)
    have hstart_pP : start ≤ pP.2 := by
      rcases Nat.lt_or_ge i0 (i0 + k'') with hlt | hge
      · have h6 := wf_end_le_start m hwf i0 (i0 + k'') hlt p0 pP hp0 hpP
        omega
      · have hk0 : k'' = 0 := by omega
        subst hk0
        have hpp0 : pP = p0 := by
          rw [show i0 + 0 = i0 from rfl] at hpP
          rw [hp0] at hpP
          exact (Option.some.inj hpP).symm
        rw [hpp0]
        omega
    have hpP_s : pP.2 ≤ s := by
      have h7 := wf_end_le_start m hwf (i0 + k'') (i0 + (k'' + 1)) (by omega)
        pP (s, e) hpP hkth2
      exact h7
    have hadv := skipLoop_advance k''
      { m with current := some i0, appendFrom := start } i0 0 [] 0 pP
      (by simp [hf]) rfl (by simpa using hpP)
      (by simpa using (show i0 + k'' + 1 < m.matchSpans.length by
        simp at hiK; omega))
    obtain ⟨B, B2, hh, hl, ht, hr⟩ := append_phase
      { m with current := some (i0 + k'' + 1), appendFrom := pP.2 } repl
      (i0 + (k'' + 1)) s e pP.2 (((k'' + 1 + 1 : Nat)) : Int) (by simp [hf])
      (by simp [hsr]) rfl (by simpa using hkth2) rfl hpP_s hbounds.1
      (by simpa using hbounds.2) (by simpa using ht0) (by omega)
    have hfuel : ((((k'' + 1 + 1 : Nat)) : Int) - 1).toNat = k'' + 1 := by omega
    have hmax2 : Nat.max pP.2 start = pP.2 := Nat.max_eq_left hstart_pP
    simp at hh hl ht hr hadv hfuel
    simp [replace, hfind, hfuel, hadv, U_SUCCESS, hmax2, hh, hl, ht, hr,
      length_resize, lastSkippedEnd, endAt, hpP, hslen]
    exact ⟨by omega, Or.inl (by omega), Or.inl (by omega)⟩

/-- Witness for C3: the spec §8 scenario — text `a-b-a-b`, pattern matching
the two `a`s, replacement `X`, selector 2 yields `a-b-X-b`. -/
theorem claim_C3_witness :
    (Matcher.WF ⟨[97, 45, 98, 45, 97, 45, 98], [(0, 1), (4, 5)], false, 0,
        none, 0⟩ ∧
      firstQualIdx [(0, 1), (4, 5)] 0 = some 0 ∧
      ([(0, 1), (4, 5)] : List (Nat × Nat))[0 + (2 - 1)]? = some (4, 5)) ∧
    replace ⟨[97, 45, 98, 45, 97, 45, 98], [(0, 1), (4, 5)], false, 0, none,
        0⟩ [88] 7 0 2 =
      { out := .fresh [97, 45, 98, 45, 88, 45, 98], returnSize := 7,
        allocBytes := 56, copyBytes := 56, stagingBytes := 14,
        replCalls := 1, skipFindNexts := 1, skipEnds := [1],
        headCall := some 1, finalEC := .zero } := by
  have hwf : Matcher.WF ⟨[97, 45, 98, 45, 97, 45, 98], [(0, 1), (4, 5)],
      false, 0, none, 0⟩ := by
    constructor
    · simp
    · intro q hq
      simp at hq
      rcases hq with hq | hq <;> simp [hq]
  have h := claim_C3_kth_occurrence ⟨[97, 45, 98, 45, 97, 45, 98],
    [(0, 1), (4, 5)], false, 0, none, 0⟩ [88] 0 2 0 4 5 hwf rfl rfl
    (by omega) rfl rfl (by decide)
  exact ⟨⟨hwf, rfl, rfl⟩, h⟩

end GoIcuRegex
